import Mathlib

/-!
A verification development for the contract-analysis core of recall-tauri
(`src-tauri/src`): the clause AST (`model/actions.rs`, `model/contracts.rs`,
`model/automata.rs`), the action extractor and concurrency enumerator
(`algorithms/action_extractor.rs`, `utils.rs`), the clause decomposer
(`algorithms/clause_decomposer.rs`), the conflict searcher
(`algorithms/conflict_searcher.rs`) and the automaton constructor
(`algorithms/automata_constructor.rs`).

Modelling conventions:
* Rust `i32` identifiers become `Int` (no arithmetic near the `i32` bounds
  occurs in the modelled code, only equality and sign tests).
* `u32` bitmasks become `Nat`; the enumerator's own hard cap (n ≤ 30) keeps
  every mask below `2^31`, so no wraparound is reachable and none is modelled.
* `FxHashSet` values become `Finset` where the code treats them purely as
  sets; where the code iterates a hash set into a vector (an order the Rust
  standard library leaves unspecified but deterministic per content), the
  iteration order is taken as an explicit list or function parameter.
* Shared ownership (`Arc`) is invisible to the value semantics and dropped.
* `panic!` aborts are modelled as `Except.error` with the formatted message.
-/

namespace Recall

/-- `ActionOperator` from `model/actions.rs` (Choice `+`, Concurrency `&`,
Sequence `.`, Negation `!`, Star `*`, None). -/
inductive ActionOperator where
  | Choice
  | Concurrency
  | Sequence
  | Negation
  | Star
  | NoneOp
deriving DecidableEq, Repr

/-- `ClauseCompositionType` from `model/contracts.rs`. -/
inductive ClauseCompositionType where
  | Xor
  | Or
  | And
  | NoneComp
deriving DecidableEq, Repr

/-- `ConflictType` from `model/contracts.rs`. -/
inductive ConflictType where
  | Global
  | Relativized
deriving DecidableEq, Repr

/-- `DeonticClauseType` from `model/contracts.rs`. -/
inductive DeonticClauseType where
  | Obligation
  | Permission
  | Prohibition
deriving DecidableEq, Repr

/-- `RelativizationType` from `model/contracts.rs`. -/
inductive RelativizationType where
  | Global
  | Relativized
  | Directed
deriving DecidableEq, Repr

/-- `StateSituation` from `model/automata.rs`. -/
inductive StateSituation where
  | Violating
  | Satisfaction
  | Conflicting
  | ConflictFree
  | NotChecked
deriving DecidableEq, Repr

/-- `BasicAction` from `model/actions.rs`: `(value, violation, skip, negation)`.
The Rust struct carries a fifth field `concurrent_actions: Vec<BasicAction>`;
every constructor in the repository (`skip()`, `violation()`, `new`,
`with_value`, and `negate`, which copies it) sets or propagates the empty
vector and no code path ever pushes into it, so the field is constantly `[]`
and is omitted here. -/
structure BasicAction where
  value : Int
  violation : Bool
  skip : Bool
  negation : Bool
deriving DecidableEq, Repr

/-- `BasicAction::skip()`: `value=0, skip=true`. -/
def BasicAction.skipAction : BasicAction := ⟨0, false, true, false⟩

/-- `BasicAction::violation()`: `value=-1, violation=true`. -/
def BasicAction.violationAction : BasicAction := ⟨-1, true, false, false⟩

/-- `BasicAction::with_value(value)`. -/
def BasicAction.withValue (value : Int) : BasicAction := ⟨value, false, false, false⟩

/-- `BasicAction::negate()`: flips the negation bit. -/
def BasicAction.negate (ba : BasicAction) : BasicAction :=
  { ba with negation := !ba.negation }

/-- `BasicAction::get_basic_actions` (the `ActionTrait` impl): pushes
`with_value(value)` unless `skip`, then appends the (constantly empty)
`concurrent_actions`. -/
def BasicAction.getBasicActions (ba : BasicAction) : List BasicAction :=
  if ba.skip then [] else [BasicAction.withValue ba.value]

/-- `Action` from `model/actions.rs`: either a `BasicAction` or a
`ComposedAction { left: Option<Box<Action>>, right: Option<Box<Action>>,
operator }`; the `ComposedAction` struct is inlined into the `composed`
constructor. -/
inductive Action where
  | basic (ba : BasicAction)
  | composed (left : Option Action) (right : Option Action) (operator : ActionOperator)

/-- Decidable structural equality for `Action` (the Rust `PartialEq` derive
is field-wise structural equality). -/
def Action.decEq : (a b : Action) → Decidable (a = b)
  | .basic a1, .basic a2 =>
      if h : a1 = a2 then .isTrue (by rw [h]) else .isFalse (by simp [h])
  | .basic _, .composed .. => .isFalse (by simp)
  | .composed .., .basic _ => .isFalse (by simp)
  | .composed none none o1, .composed none none o2 =>
      if h : o1 = o2 then .isTrue (by rw [h]) else .isFalse (by simp [h])
  | .composed none (some r1) o1, .composed none (some r2) o2 =>
      match Action.decEq r1 r2 with
      | .isTrue hr =>
          if h : o1 = o2 then .isTrue (by rw [hr, h]) else .isFalse (by simp [h])
      | .isFalse hr => .isFalse (by simp; intro h; exact absurd h hr)
  | .composed (some l1) none o1, .composed (some l2) none o2 =>
      match Action.decEq l1 l2 with
      | .isTrue hl =>
          if h : o1 = o2 then .isTrue (by rw [hl, h]) else .isFalse (by simp [h])
      | .isFalse hl => .isFalse (by simp; intro h; exact absurd h hl)
  | .composed (some l1) (some r1) o1, .composed (some l2) (some r2) o2 =>
      match Action.decEq l1 l2, Action.decEq r1 r2 with
      | .isTrue hl, .isTrue hr =>
          if h : o1 = o2 then .isTrue (by rw [hl, hr, h]) else .isFalse (by simp [h])
      | .isFalse hl, _ => .isFalse (by simp; intro h _; exact absurd h hl)
      | _, .isFalse hr => .isFalse (by simp; intro _ h _; exact absurd h hr)
  | .composed none none _, .composed none (some _) _ => .isFalse (by simp)
  | .composed none none _, .composed (some _) none _ => .isFalse (by simp)
  | .composed none none _, .composed (some _) (some _) _ => .isFalse (by simp)
  | .composed none (some _) _, .composed none none _ => .isFalse (by simp)
  | .composed none (some _) _, .composed (some _) none _ => .isFalse (by simp)
  | .composed none (some _) _, .composed (some _) (some _) _ => .isFalse (by simp)
  | .composed (some _) none _, .composed none none _ => .isFalse (by simp)
  | .composed (some _) none _, .composed none (some _) _ => .isFalse (by simp)
  | .composed (some _) none _, .composed (some _) (some _) _ => .isFalse (by simp)
  | .composed (some _) (some _) _, .composed none none _ => .isFalse (by simp)
  | .composed (some _) (some _) _, .composed none (some _) _ => .isFalse (by simp)
  | .composed (some _) (some _) _, .composed (some _) none _ => .isFalse (by simp)

instance : DecidableEq Action := Action.decEq

/-- `Action::get_basic_actions`: collect basic actions from both sides of a
composed action (absent sides contribute nothing). -/
def Action.getBasicActions : Action → List BasicAction
  | .basic ba => ba.getBasicActions
  | .composed none none _ => []
  | .composed none (some r) _ => r.getBasicActions
  | .composed (some l) none _ => l.getBasicActions
  | .composed (some l) (some r) _ => l.getBasicActions ++ r.getBasicActions

/-- `Action::negation(action)`: the unary `!` composed action. -/
def Action.negationOf (a : Action) : Action :=
  Action.composed (some a) none ActionOperator.Negation

/-- `Clause` from `model/contracts.rs`. `ClauseComposition { composition_type,
other }` is modelled as the pair `(composition_type, other)`; `penalty` and the
dynamic inner clause lose their `Arc` wrappers. -/
inductive Clause where
  | boolean (value : Bool) (composition : Option (ClauseCompositionType × Clause))
  | deontic (sender receiver : Int) (relativization_type : RelativizationType)
      (action : Action) (deontic_type : DeonticClauseType)
      (penalty : Option Clause) (composition : Option (ClauseCompositionType × Clause))
  | dynamic (sender receiver : Int) (relativization_type : RelativizationType)
      (action : Action) (inner : Clause)
      (composition : Option (ClauseCompositionType × Clause))

/-- Decidable structural equality for `Clause` (the Rust `PartialEq` derive). -/
def Clause.decEq : (a b : Clause) → Decidable (a = b)
  | .boolean v1 none, .boolean v2 none =>
      if h : v1 = v2 then .isTrue (by rw [h]) else .isFalse (by simp [h])
  | .boolean v1 (some (t1, c1)), .boolean v2 (some (t2, c2)) =>
      match Clause.decEq c1 c2 with
      | .isTrue hc =>
          if h : v1 = v2 ∧ t1 = t2 then .isTrue (by rw [h.1, h.2, hc])
          else .isFalse (by simp; intro hv ht _; exact absurd ⟨hv, ht⟩ h)
      | .isFalse hc => .isFalse (by simp; intro _ _; exact hc)
  | .boolean _ none, .boolean _ (some _) => .isFalse (by simp)
  | .boolean _ (some _), .boolean _ none => .isFalse (by simp)
  | .boolean _ _, .deontic .. => .isFalse (by simp)
  | .boolean _ _, .dynamic .. => .isFalse (by simp)
  | .deontic .., .boolean _ _ => .isFalse (by simp)
  | .deontic .., .dynamic .. => .isFalse (by simp)
  | .dynamic .., .boolean _ _ => .isFalse (by simp)
  | .dynamic .., .deontic .. => .isFalse (by simp)
  | .deontic s1 r1 rt1 a1 d1 none none, .deontic s2 r2 rt2 a2 d2 none none =>
      if h : s1 = s2 ∧ r1 = r2 ∧ rt1 = rt2 ∧ a1 = a2 ∧ d1 = d2 then
        .isTrue (by rw [h.1, h.2.1, h.2.2.1, h.2.2.2.1, h.2.2.2.2])
      else .isFalse (by simp; intro h1 h2 h3 h4 h5; exact absurd ⟨h1, h2, h3, h4, h5⟩ h)
  | .deontic s1 r1 rt1 a1 d1 (some p1) none, .deontic s2 r2 rt2 a2 d2 (some p2) none =>
      match Clause.decEq p1 p2 with
      | .isTrue hp =>
          if h : s1 = s2 ∧ r1 = r2 ∧ rt1 = rt2 ∧ a1 = a2 ∧ d1 = d2 then
            .isTrue (by rw [h.1, h.2.1, h.2.2.1, h.2.2.2.1, h.2.2.2.2, hp])
          else .isFalse (by simp; intro h1 h2 h3 h4 h5 _; exact absurd ⟨h1, h2, h3, h4, h5⟩ h)
      | .isFalse hp => .isFalse (by simp; intro _ _ _ _ _ hpe; exact absurd hpe hp)
  | .deontic s1 r1 rt1 a1 d1 none (some (t1, c1)), .deontic s2 r2 rt2 a2 d2 none (some (t2, c2)) =>
      match Clause.decEq c1 c2 with
      | .isTrue hc =>
          if h : s1 = s2 ∧ r1 = r2 ∧ rt1 = rt2 ∧ a1 = a2 ∧ d1 = d2 ∧ t1 = t2 then
            .isTrue (by rw [h.1, h.2.1, h.2.2.1, h.2.2.2.1, h.2.2.2.2.1, h.2.2.2.2.2, hc])
          else .isFalse (by
            simp; intro h1 h2 h3 h4 h5 h6 _; exact absurd ⟨h1, h2, h3, h4, h5, h6⟩ h)
      | .isFalse hc => .isFalse (by simp; intro _ _ _ _ _ _ hce; exact absurd hce hc)
  | .deontic s1 r1 rt1 a1 d1 (some p1) (some (t1, c1)),
    .deontic s2 r2 rt2 a2 d2 (some p2) (some (t2, c2)) =>
      match Clause.decEq p1 p2, Clause.decEq c1 c2 with
      | .isTrue hp, .isTrue hc =>
          if h : s1 = s2 ∧ r1 = r2 ∧ rt1 = rt2 ∧ a1 = a2 ∧ d1 = d2 ∧ t1 = t2 then
            .isTrue (by rw [h.1, h.2.1, h.2.2.1, h.2.2.2.1, h.2.2.2.2.1, h.2.2.2.2.2, hp, hc])
          else .isFalse (by
            simp; intro h1 h2 h3 h4 h5 _ h6 _; exact absurd ⟨h1, h2, h3, h4, h5, h6⟩ h)
      | .isFalse hp, _ => .isFalse (by simp; intro _ _ _ _ _ hpe _ _; exact absurd hpe hp)
      | _, .isFalse hc => .isFalse (by simp; intro _ _ _ _ _ _ _ hce; exact absurd hce hc)
  | .deontic _ _ _ _ _ none none, .deontic _ _ _ _ _ (some _) none => .isFalse (by simp)
  | .deontic _ _ _ _ _ none none, .deontic _ _ _ _ _ none (some _) => .isFalse (by simp)
  | .deontic _ _ _ _ _ none none, .deontic _ _ _ _ _ (some _) (some _) => .isFalse (by simp)
  | .deontic _ _ _ _ _ (some _) none, .deontic _ _ _ _ _ none none => .isFalse (by simp)
  | .deontic _ _ _ _ _ (some _) none, .deontic _ _ _ _ _ none (some _) => .isFalse (by simp)
  | .deontic _ _ _ _ _ (some _) none, .deontic _ _ _ _ _ (some _) (some _) => .isFalse (by simp)
  | .deontic _ _ _ _ _ none (some _), .deontic _ _ _ _ _ none none => .isFalse (by simp)
  | .deontic _ _ _ _ _ none (some _), .deontic _ _ _ _ _ (some _) none => .isFalse (by simp)
  | .deontic _ _ _ _ _ none (some _), .deontic _ _ _ _ _ (some _) (some _) => .isFalse (by simp)
  | .deontic _ _ _ _ _ (some _) (some _), .deontic _ _ _ _ _ none none => .isFalse (by simp)
  | .deontic _ _ _ _ _ (some _) (some _), .deontic _ _ _ _ _ (some _) none => .isFalse (by simp)
  | .deontic _ _ _ _ _ (some _) (some _), .deontic _ _ _ _ _ none (some _) => .isFalse (by simp)
  | .dynamic s1 r1 rt1 a1 i1 none, .dynamic s2 r2 rt2 a2 i2 none =>
      match Clause.decEq i1 i2 with
      | .isTrue hi =>
          if h : s1 = s2 ∧ r1 = r2 ∧ rt1 = rt2 ∧ a1 = a2 then
            .isTrue (by rw [h.1, h.2.1, h.2.2.1, h.2.2.2, hi])
          else .isFalse (by simp; intro h1 h2 h3 h4 _; exact absurd ⟨h1, h2, h3, h4⟩ h)
      | .isFalse hi => .isFalse (by simp; intro _ _ _ _ hie; exact absurd hie hi)
  | .dynamic s1 r1 rt1 a1 i1 (some (t1, c1)), .dynamic s2 r2 rt2 a2 i2 (some (t2, c2)) =>
      match Clause.decEq i1 i2, Clause.decEq c1 c2 with
      | .isTrue hi, .isTrue hc =>
          if h : s1 = s2 ∧ r1 = r2 ∧ rt1 = rt2 ∧ a1 = a2 ∧ t1 = t2 then
            .isTrue (by rw [h.1, h.2.1, h.2.2.1, h.2.2.2.1, h.2.2.2.2, hi, hc])
          else .isFalse (by
            simp; intro h1 h2 h3 h4 _ h5 _; exact absurd ⟨h1, h2, h3, h4, h5⟩ h)
      | .isFalse hi, _ => .isFalse (by simp; intro _ _ _ _ hie _ _; exact absurd hie hi)
      | _, .isFalse hc => .isFalse (by simp; intro _ _ _ _ _ _ hce; exact absurd hce hc)
  | .dynamic _ _ _ _ _ none, .dynamic _ _ _ _ _ (some _) => .isFalse (by simp)
  | .dynamic _ _ _ _ _ (some _), .dynamic _ _ _ _ _ none => .isFalse (by simp)

instance : DecidableEq Clause := Clause.decEq

/-- `Clause::boolean_true()`. -/
def Clause.booleanTrue : Clause := Clause.boolean true none

/-- `Clause::boolean_false()`. -/
def Clause.booleanFalse : Clause := Clause.boolean false none

/-- `Clause::get_composition`. -/
def Clause.getComposition : Clause → Option (ClauseCompositionType × Clause)
  | .boolean _ composition => composition
  | .deontic _ _ _ _ _ _ composition => composition
  | .dynamic _ _ _ _ _ composition => composition

/-- `Clause::set_composition` (functional update). -/
def Clause.setComposition (c : Clause) (comp : ClauseCompositionType × Clause) : Clause :=
  match c with
  | .boolean v _ => .boolean v (some comp)
  | .deontic s r rt a d p _ => .deontic s r rt a d p (some comp)
  | .dynamic s r rt a i _ => .dynamic s r rt a i (some comp)

/-- `Clause::set_composition_to_none` (functional update). -/
def Clause.setCompositionToNone : Clause → Clause
  | .boolean v _ => .boolean v none
  | .deontic s r rt a d p _ => .deontic s r rt a d p none
  | .dynamic s r rt a i _ => .dynamic s r rt a i none

/-- `Clause::get_sender` (`0` for Boolean clauses). -/
def Clause.getSender : Clause → Int
  | .boolean _ _ => 0
  | .deontic s _ _ _ _ _ _ => s
  | .dynamic s _ _ _ _ _ => s

/-- `Clause::get_receiver` (`0` for Boolean clauses). -/
def Clause.getReceiver : Clause → Int
  | .boolean _ _ => 0
  | .deontic _ r _ _ _ _ _ => r
  | .dynamic _ r _ _ _ _ => r

/-- `Clause::contains(comp_type, target)`: walk the composition spine, but
only through edges of type `comp_type`, testing the composition-stripped node
against `target` at each step. -/
def Clause.contains (c : Clause) (compType : ClauseCompositionType) (target : Clause) : Bool :=
  if c.setCompositionToNone = target then true
  else
    match c with
    | .boolean _ (some (ct, other))
    | .deontic _ _ _ _ _ _ (some (ct, other))
    | .dynamic _ _ _ _ _ (some (ct, other)) =>
        if ct ≠ compType then false
        else Clause.contains other compType target
    | _ => false

/-- `RelativizedAction` from `model/actions.rs`. -/
structure RelativizedAction where
  negation : Bool
  sender : Int
  action : BasicAction
  receiver : Int
deriving DecidableEq, Repr

/-- `RelativizedAction::new(sender, action, receiver)`: negation starts false. -/
def RelativizedAction.new (sender : Int) (action : BasicAction) (receiver : Int) :
    RelativizedAction :=
  ⟨false, sender, action, receiver⟩

/-- `RelativizedAction::negation(action)`: same fields with `negation=true`. -/
def RelativizedAction.negationOf (a : RelativizedAction) : RelativizedAction :=
  ⟨true, a.sender, a.action, a.receiver⟩

/-- `Conflict` from `model/contracts.rs` (`PartialEq`/`Eq` are derived, hence
field-wise). -/
structure Conflict where
  a : BasicAction
  b : BasicAction
  conflict_type : ConflictType
deriving DecidableEq, Repr

/-- The custom `Hash for Conflict` impl hashes `conflict_type`, then the two
actions ordered so that the one with `value <= value` of the other comes
first. A hash value is a pure function of the data fed to the hasher, so the
fed stream is modelled as the tuple below: two conflicts receive equal hashes
exactly when their streams are equal. -/
def Conflict.hashStream (c : Conflict) : ConflictType × BasicAction × BasicAction :=
  if c.a.value ≤ c.b.value then (c.conflict_type, c.a, c.b)
  else (c.conflict_type, c.b, c.a)

/-- `DeonticTag` from `model/automata.rs`. -/
structure DeonticTag where
  deontic_type : DeonticClauseType
  action : BasicAction
  relativization : RelativizationType
  sender : Int
  receiver : Int
deriving DecidableEq, Repr

/-- `DeonticTag::directed`. -/
def DeonticTag.directed (d : DeonticClauseType) (a : BasicAction) (s r : Int) : DeonticTag :=
  ⟨d, a, RelativizationType.Directed, s, r⟩

/-- `DeonticTag::relativized` (receiver is the `-1` sentinel). -/
def DeonticTag.relativized (d : DeonticClauseType) (a : BasicAction) (s : Int) : DeonticTag :=
  ⟨d, a, RelativizationType.Relativized, s, -1⟩

/-- `DeonticTag::global` (sender and receiver are the `-1` sentinel). -/
def DeonticTag.global (d : DeonticClauseType) (a : BasicAction) : DeonticTag :=
  ⟨d, a, RelativizationType.Global, -1, -1⟩


/-- `Clause::dynamic_directed(sender, receiver, action, clause)`: the
relativization type is inferred from the sign of the identifiers. -/
def Clause.dynamicDirected (sender receiver : Int) (action : Action) (inner : Clause) : Clause :=
  let relativization_type :=
    if sender < 0 then RelativizationType.Global
    else if receiver < 0 then RelativizationType.Relativized
    else RelativizationType.Directed
  Clause.dynamic sender receiver relativization_type action inner none

/-! ## Clause decomposer (`algorithms/clause_decomposer.rs`) -/

/-- `ClauseDecomposer { individuals, ignore_self_actions }`. -/
structure ClauseDecomposer where
  individuals : Finset Int
  ignore_self_actions : Bool

/-- The shared Deontic/Dynamic match arm of
`ClauseDecomposer::generate_relativized_actions`: iterate the head action's
basic actions over individuals according to the relativization type. -/
def ClauseDecomposer.headActions (individuals : Finset Int) (ignore : Bool)
    (sender receiver : Int) (rt : RelativizationType) (action : Action) :
    Finset RelativizedAction :=
  let basicActions := action.getBasicActions
  match rt with
  | .Directed =>
      basicActions.foldr (fun ba s => insert (RelativizedAction.new sender ba receiver) s) ∅
  | .Relativized =>
      individuals.biUnion fun j =>
        if ¬(ignore = true ∧ sender = j) then
          basicActions.foldr (fun ba s => insert (RelativizedAction.new sender ba j) s) ∅
        else ∅
  | .Global =>
      individuals.biUnion fun i => individuals.biUnion fun j =>
        if ¬(ignore = true ∧ i = j) then
          basicActions.foldr (fun ba s => insert (RelativizedAction.new i ba j) s) ∅
        else ∅

/-- `ClauseDecomposer::generate_relativized_actions`: the per-head relativized
action set of a deontic or dynamic clause (Boolean heads yield the empty set).
`ignore` suppresses self-directed pairs only when more than one individual
exists and `ignore_self_actions` is set. -/
def ClauseDecomposer.generateRelativizedActions (D : ClauseDecomposer) (clause : Clause) :
    Finset RelativizedAction :=
  let ignore := if 1 < D.individuals.card then D.ignore_self_actions else false
  match clause with
  | .boolean _ _ => ∅
  | .deontic sender receiver rt action _ _ _ =>
      ClauseDecomposer.headActions D.individuals ignore sender receiver rt action
  | .dynamic sender receiver rt action _ _ =>
      ClauseDecomposer.headActions D.individuals ignore sender receiver rt action

/-- `ClauseDecomposer::decompose_deontic_special` (SKIP/VIOLATION heads). -/
def ClauseDecomposer.decomposeDeonticSpecial (_D : ClauseDecomposer) (clause : Clause)
    (_actions : Finset RelativizedAction) : Clause :=
  match clause with
  | .deontic _ _ _ (.basic basic_action) deontic_type penalty _ =>
      match deontic_type with
      | .Obligation =>
          if basic_action.skip then Clause.booleanTrue
          else penalty.getD Clause.booleanFalse
      | .Prohibition =>
          if basic_action.violation then Clause.booleanTrue
          else penalty.getD Clause.booleanFalse
      | .Permission => Clause.booleanTrue
  | _ => clause

/-- `ClauseDecomposer::decompose_deontic` (the head is expected to carry a
basic action; non-deontic clauses and composed actions fall through as
clones, as in the source). -/
def ClauseDecomposer.decomposeDeontic (D : ClauseDecomposer) (clause : Clause)
    (actions : Finset RelativizedAction) : Clause :=
  match clause with
  | .deontic _ _ relativization_type (.basic basic_action) deontic_type penalty _ =>
      if basic_action.violation = true ∨ basic_action.skip = true then
        D.decomposeDeonticSpecial clause actions
      else
        let clause_actions := D.generateRelativizedActions clause
        let intersection := actions.filter (fun ra => ra ∈ clause_actions)
        match deontic_type with
        | .Obligation =>
            let satisfied :=
              match relativization_type with
              | .Relativized => decide (¬intersection = ∅)
              | .Global | .Directed => decide (clause_actions ⊆ actions)
            if satisfied then Clause.booleanTrue
            else penalty.getD Clause.booleanFalse
        | .Prohibition =>
            if intersection = ∅ then Clause.booleanTrue
            else penalty.getD Clause.booleanFalse
        | .Permission => Clause.booleanTrue
  | _ => clause

/-- `ClauseDecomposer::decompose_dynamic`. -/
def ClauseDecomposer.decomposeDynamic (D : ClauseDecomposer) (clause : Clause)
    (actions : Finset RelativizedAction) : Clause :=
  match clause with
  | .dynamic _ _ relativization_type (.basic basic_action) inner_clause _ =>
      if basic_action.skip then inner_clause
      else
        let clause_actions := D.generateRelativizedActions clause
        let has_intersection := decide (∃ a ∈ actions, a ∈ clause_actions)
        let sat :=
          match relativization_type with
          | .Relativized => has_intersection
          | .Global | .Directed => decide (∀ ca ∈ clause_actions, ca ∈ actions)
        let sat := if basic_action.negation then !sat else sat
        if sat then inner_clause else Clause.booleanTrue
  | _ => clause

/-- `ClauseDecomposer::evaluate_boolean`. -/
def ClauseDecomposer.evaluateBoolean (_D : ClauseDecomposer) (v1 v2 : Bool)
    (compType : ClauseCompositionType) : Clause :=
  let result :=
    match compType with
    | .And => v1 && v2
    | .Or => v1 || v2
    | .Xor => (v1 && !v2) || (!v1 && v2)
    | .NoneComp => false
  if result then Clause.booleanTrue else Clause.booleanFalse

/-- `ClauseDecomposer::combine_clause`: combine a non-Boolean `c1` with a
Boolean `c2` (a non-Boolean `c2` falls through to `c1`, as in the source). -/
def ClauseDecomposer.combineClause (_D : ClauseDecomposer) (c1 c2 : Clause)
    (compType : ClauseCompositionType) : Clause :=
  match c2 with
  | .boolean value _ =>
      match compType with
      | .And => if value then c1 else c2
      | .Or | .Xor => c1.setComposition (compType, c2)
      | .NoneComp => c1
  | _ => c1

/-- `ClauseDecomposer::combine`. -/
def ClauseDecomposer.combine (D : ClauseDecomposer) (c1 c2 : Clause)
    (compType : ClauseCompositionType) : Clause :=
  match c1, c2 with
  | .boolean v1 _, .boolean v2 _ => D.evaluateBoolean v1 v2 compType
  | .boolean _ _, _ => D.combineClause c2 c1 compType
  | _, .boolean _ _ => D.combineClause c1 c2 compType
  | _, _ =>
      if c2.contains compType c1 then c2
      else c1.setComposition (compType, c2)

/-- `ClauseDecomposer::append_composition`: attach `new_clause` at the
rightmost position of `clause`'s composition spine with type `comp_type`. -/
def ClauseDecomposer.appendComposition (clause new_clause : Clause)
    (comp_type : ClauseCompositionType) : Clause :=
  match clause with
  | .boolean v (some (ct, other)) =>
      Clause.boolean v
        (some (ct, ClauseDecomposer.appendComposition other new_clause comp_type))
  | .deontic se re rt a d p (some (ct, other)) =>
      Clause.deontic se re rt a d p
        (some (ct, ClauseDecomposer.appendComposition other new_clause comp_type))
  | .dynamic se re rt a i (some (ct, other)) =>
      Clause.dynamic se re rt a i
        (some (ct, ClauseDecomposer.appendComposition other new_clause comp_type))
  | _ => clause.setComposition (comp_type, new_clause)

/-- `ClauseDecomposer::process_composed_obligation`: Stage-1 elaboration of a
deontic Obligation (also reused for Permission) whose action is composed. -/
def ClauseDecomposer.processComposedObligation (clause : Clause) : Clause :=
  match clause with
  | .deontic sender receiver relativization_type
      (.composed (some left) (some right) operator) deontic_type penalty composition =>
      match operator with
      | .Concurrency =>
          let c1 := Clause.deontic sender receiver relativization_type left
            deontic_type penalty none
          let c2 := Clause.deontic sender receiver relativization_type right
            deontic_type penalty composition
          c1.setComposition (ClauseCompositionType.And, c2)
      | .Sequence =>
          let c1 := Clause.deontic sender receiver relativization_type left
            deontic_type penalty none
          let c2 := Clause.deontic sender receiver relativization_type right
            deontic_type penalty none
          let cd := Clause.dynamicDirected sender receiver left c2
          let cd_with_comp :=
            match composition with
            | some comp => cd.setComposition comp
            | none => cd
          c1.setComposition (ClauseCompositionType.And, cd_with_comp)
      | .Choice =>
          let c1 := Clause.deontic sender receiver relativization_type left
            deontic_type penalty none
          let c2 := Clause.deontic sender receiver relativization_type right
            deontic_type penalty composition
          c1.setComposition (ClauseCompositionType.Or, c2)
      | _ => clause
  | _ => clause

/-- `ClauseDecomposer::process_composed_prohibition`. -/
def ClauseDecomposer.processComposedProhibition (clause : Clause) : Clause :=
  match clause with
  | .deontic sender receiver relativization_type
      (.composed (some left) (some right) operator) deontic_type penalty composition =>
      match operator with
      | .Choice | .Concurrency =>
          let c1 := Clause.deontic sender receiver relativization_type left
            deontic_type penalty none
          let c2 := Clause.deontic sender receiver relativization_type right
            deontic_type penalty composition
          c1.setComposition (ClauseCompositionType.And, c2)
      | .Sequence =>
          let c1 := Clause.deontic sender receiver relativization_type left
            deontic_type penalty none
          let c2 := Clause.deontic sender receiver relativization_type right
            deontic_type penalty none
          let cd := Clause.dynamicDirected sender receiver left c2
          let cd_with_comp :=
            match composition with
            | some comp => cd.setComposition comp
            | none => cd
          c1.setComposition (ClauseCompositionType.Or, cd_with_comp)
      | _ => clause
  | _ => clause


/-- `ClauseDecomposer::process_composed_permission`: reuses the Obligation
rewrite. -/
def ClauseDecomposer.processComposedPermission (clause : Clause) : Clause :=
  ClauseDecomposer.processComposedObligation clause

/-- `ClauseDecomposer::process_negation_composed_actions`: push an action
negation down (a Dynamic head whose action is `!inner`). -/
def ClauseDecomposer.processNegationComposedActions (clause : Clause) : Clause :=
  match clause with
  | .dynamic sender receiver relativization_type
      (.composed (some left) _ _) inner_clause composition =>
      match left with
      | .basic ba =>
          Clause.dynamic sender receiver relativization_type (.basic ba.negate)
            inner_clause composition
      | .composed (some seq_left) (some seq_right) .Sequence =>
          let c1 := Clause.dynamic sender receiver relativization_type
            (Action.negationOf seq_right) inner_clause none
          Clause.dynamic sender receiver relativization_type
            (Action.negationOf seq_left) c1 composition
      | .composed (some conc_left) (some conc_right) .Concurrency =>
          let c1 := Clause.dynamic sender receiver relativization_type
            (Action.negationOf conc_left) inner_clause none
          let c2 := Clause.dynamic sender receiver relativization_type
            (Action.negationOf conc_right) inner_clause composition
          c1.setComposition (ClauseCompositionType.And, c2)
      | .composed (some choice_left) (some choice_right) .Choice =>
          let c1 := Clause.dynamic sender receiver relativization_type
            (Action.negationOf choice_left) inner_clause none
          let c2 := Clause.dynamic sender receiver relativization_type
            (Action.negationOf choice_right) inner_clause composition
          c1.setComposition (ClauseCompositionType.Or, c2)
      | _ => clause
  | .dynamic sender receiver relativization_type
      (.composed none _ _) _ _ =>
      let _ := (sender, receiver, relativization_type)
      Clause.booleanFalse
  | _ => clause

/-- `ClauseDecomposer::process_dynamic_composed_actions`: Stage-1 elaboration
of a Dynamic clause whose action is composed. -/
def ClauseDecomposer.processDynamicComposedActions (clause : Clause) : Clause :=
  match clause with
  | .dynamic sender receiver relativization_type
      (.composed composed_left composed_right operator) inner_clause composition =>
      match operator with
      | .Star =>
          match composed_left with
          | some left =>
              let clause1 := clause
              let dc := Clause.dynamic sender receiver relativization_type left
                clause1 composition
              inner_clause.setComposition (ClauseCompositionType.And, dc)
          | none => clause
      | .Sequence =>
          match composed_left, composed_right with
          | some left, some right =>
              let c1 := Clause.dynamic sender receiver relativization_type right
                inner_clause none
              Clause.dynamic sender receiver relativization_type left c1 composition
          | _, _ => clause
      | .Choice =>
          match composed_left, composed_right with
          | some left, some right =>
              let c1 := Clause.dynamic sender receiver relativization_type left
                inner_clause none
              let c2 := Clause.dynamic sender receiver relativization_type right
                inner_clause composition
              c1.setComposition (ClauseCompositionType.And, c2)
          | _, _ => clause
      | .Negation => ClauseDecomposer.processNegationComposedActions clause
      | _ => clause
  | _ => clause

/-- `ClauseDecomposer::process_deontic_composed_actions`. -/
def ClauseDecomposer.processDeonticComposedActions (clause : Clause) : Clause :=
  match clause with
  | .deontic _ _ _ (.composed ..) deontic_type _ _ =>
      match deontic_type with
      | .Obligation => ClauseDecomposer.processComposedObligation clause
      | .Prohibition => ClauseDecomposer.processComposedProhibition clause
      | .Permission => ClauseDecomposer.processComposedPermission clause
  | _ => clause

/-- `ClauseDecomposer::process_single_composed_actions`: heads with basic
actions (and Boolean heads) are returned unchanged; composed heads are
rewritten once. -/
def ClauseDecomposer.processSingleComposedActions (clause : Clause) : Clause :=
  match clause with
  | .boolean _ _ => clause
  | .deontic _ _ _ (.basic _) _ _ _ => clause
  | .deontic _ _ _ (.composed ..) _ _ _ =>
      ClauseDecomposer.processDeonticComposedActions clause
  | .dynamic _ _ _ (.basic _) _ _ => clause
  | .dynamic _ _ _ (.composed ..) _ _ =>
      ClauseDecomposer.processDynamicComposedActions clause

/-- `ClauseDecomposer::process_composed_actions`: Stage-1 elaboration over
the composition spine. Each head is rewritten in isolation (with its
composition stripped), the tail is elaborated recursively, and the elaborated
tail is re-attached at the rightmost position of the rewritten head's spine. -/
def ClauseDecomposer.processComposedActions (clause : Clause) : Clause :=
  match clause with
  | .boolean _ (some (ct, other))
  | .deontic _ _ _ _ _ _ (some (ct, other))
  | .dynamic _ _ _ _ _ (some (ct, other)) =>
      let c1 := ClauseDecomposer.processSingleComposedActions clause.setCompositionToNone
      let c2 := ClauseDecomposer.processComposedActions other
      ClauseDecomposer.appendComposition c1 c2 ct
  | _ => ClauseDecomposer.processSingleComposedActions clause

/-- `ClauseDecomposer::is_composed_action`. -/
def ClauseDecomposer.isComposedAction : Action → Bool
  | .composed .. => true
  | .basic _ => false

mutual

/-- `ClauseDecomposer::decompose` / `decompose_single`, fuel-indexed.

The Rust recursion is not structurally decreasing (a composed head is
elaborated and the result decomposed again), so the mutual recursion is
indexed by a fuel counter that strictly decreases at every call; exhausted
fuel returns the clause unchanged. Theorems about concrete runs supply enough
fuel, and (as the Rust code with an unbounded stack would) never hit zero. -/
def ClauseDecomposer.decompose (D : ClauseDecomposer) :
    Nat → Clause → Finset RelativizedAction → Clause
  | 0, clause, _ => clause
  | fuel + 1, clause, actions =>
      match clause.getComposition with
      | some (ct, other) =>
          let c1 := D.decomposeSingle fuel clause.setCompositionToNone actions
          let c2 := D.decompose fuel other actions
          D.combine c1 c2 ct
      | none => D.decomposeSingle fuel clause actions

/-- `ClauseDecomposer::decompose_single` (see `ClauseDecomposer.decompose`). -/
def ClauseDecomposer.decomposeSingle (D : ClauseDecomposer) :
    Nat → Clause → Finset RelativizedAction → Clause
  | 0, clause, _ => clause
  | fuel + 1, clause, actions =>
      match clause with
      | .boolean _ _ => clause
      | .deontic _ _ _ action _ _ _ =>
          if ClauseDecomposer.isComposedAction action then
            D.decompose fuel (ClauseDecomposer.processComposedActions clause) actions
          else D.decomposeDeontic clause actions
      | .dynamic _ _ _ action _ _ =>
          if ClauseDecomposer.isComposedAction action then
            D.decompose fuel (ClauseDecomposer.processComposedActions clause) actions
          else D.decomposeDynamic clause actions

end


/-! ## Concurrency enumerator (`utils.rs`, `ContractUtil`) -/

/-- `CompressedConcurrentActions` from `utils.rs`: the stable action order
(`source_map`) and the valid subset bitmasks. -/
structure CompressedConcurrentActions where
  source_map : List RelativizedAction
  valid_masks : List Nat
deriving DecidableEq, Repr

/-- One conflict's check inside `ContractUtil::is_valid`: the loop body,
which `continue`s (true) or returns false. -/
def ContractUtil.conflictPasses (actions : Finset RelativizedAction) (conflict : Conflict) :
    Bool :=
  let count_a := (actions.filter fun ra => ra.action.value = conflict.a.value).card
  if count_a = 0 then true
  else
    let count_b := (actions.filter fun ra => ra.action.value = conflict.b.value).card
    if count_b = 0 then true
    else if conflict.conflict_type = ConflictType.Global then false
    else if conflict.conflict_type = ConflictType.Relativized then
      !decide (∃ ra_a ∈ actions.filter (fun ra : RelativizedAction => ra.action.value = conflict.a.value),
        ∃ ra_b ∈ actions, ra_b.action.value = conflict.b.value ∧ ra_b.sender = ra_a.sender)
    else true

/-- `ContractUtil::is_valid`: a non-empty action set every conflict of the
catalogue passes on. -/
def ContractUtil.isValid (actions : Finset RelativizedAction) (conflicts : List Conflict) :
    Bool :=
  if actions = ∅ then false
  else conflicts.all (ContractUtil.conflictPasses actions)

/-- The mask-decoding loop shared by `ContractUtil::
calculate_concurrent_relativized_actions`, the constructor's batch expansion
and `Transition::actions`: the set of `source_map` entries whose bit is set
(out-of-range bits are skipped, as `src.get` does). -/
def decodeMask (src : List RelativizedAction) (mask : Nat) : Finset RelativizedAction :=
  ((List.range src.length).filter fun i => mask.testBit i).foldr
    (fun i s => match src.get? i with | some act => insert act s | none => s) ∅

/-- `u32::count_ones` on a mask. -/
def u32CountOnes (n : Nat) : Nat :=
  ((List.range 32).filter fun i => n.testBit i).length

/-- Insertion step of the stable popcount-descending sort. -/
def insertPopcountDesc (x : Nat) : List Nat → List Nat
  | [] => [x]
  | y :: ys =>
      if u32CountOnes y ≤ u32CountOnes x then x :: y :: ys
      else y :: insertPopcountDesc x ys

/-- `valid_masks.sort_by(|a, b| b.count_ones().cmp(&a.count_ones()))`:
`Vec::sort_by` is a stable sort, and a stable sort under a total comparison
has a unique result, so the stable insertion sort here computes exactly the
order the Rust sort produces (fuller subsets first, ties in enumeration
order). -/
def sortByPopcountDesc : List Nat → List Nat
  | [] => []
  | x :: xs => insertPopcountDesc x (sortByPopcountDesc xs)

/-- `ContractUtil::calculate_concurrent_relativized_actions`.

The Rust function takes the relativized-action `FxHashSet` and iterates it
into the `source_map` vector; the iteration order is unspecified, so the
function here takes that enumeration (`relativized_actions`, duplicate-free
listing of the set) directly. `n > 30` panics with the CRITICAL capacity
message, modelled as `Except.error`; the `try_reserve` failure path depends
on the host allocator and is not modelled (reservation is assumed to
succeed). Valid masks are the masks below `2^n` whose decoded subsets pass
`is_valid`, stably sorted by descending popcount. -/
def ContractUtil.calculateConcurrentRelativizedActions
    (relativized_actions : List RelativizedAction) (conflicts : List Conflict) :
    Except String CompressedConcurrentActions :=
  let n := relativized_actions.length
  if n > 30 then
    Except.error ("CRITICAL: Can't calculate the set of concurrent relativized actions. (Number of actions " ++ toString n ++ "). Maximum supported is 30.")
  else
    let src := relativized_actions
    let valid_masks :=
      (List.range (2 ^ n)).filter fun mask =>
        ContractUtil.isValid (decodeMask src mask) conflicts
    let valid_masks := sortByPopcountDesc valid_masks
    Except.ok ⟨src, valid_masks⟩

/-! ## Action extractor (`algorithms/action_extractor.rs`) -/

/-- The head contribution (the `match relativization_type` block) of
`ActionExtractor::calculate_relativized_actions`; unlike the decomposer's
variant, `ignore_self` is simply `indiv.len() > 1`. -/
def ActionExtractor.headRelativizedActions (sender receiver : Int)
    (rt : RelativizationType) (action : Action) (indiv : Finset Int) :
    Finset RelativizedAction :=
  let basic_actions := action.getBasicActions
  match rt with
  | .Directed =>
      basic_actions.foldr (fun ba s => insert (RelativizedAction.new sender ba receiver) s) ∅
  | .Relativized =>
      let ignore_self := 1 < indiv.card
      indiv.biUnion fun j =>
        if ¬(ignore_self ∧ sender = j) then
          basic_actions.foldr (fun ba s => insert (RelativizedAction.new sender ba j) s) ∅
        else ∅
  | .Global =>
      let ignore_self := 1 < indiv.card
      indiv.biUnion fun i => indiv.biUnion fun j =>
        if ¬(ignore_self ∧ i = j) then
          basic_actions.foldr (fun ba s => insert (RelativizedAction.new i ba j) s) ∅
        else ∅


/-- `ActionExtractor::calculate_relativized_actions`: the per-head block
(`ActionExtractor.headRelativizedActions`) united with the trailing
composition recursion. Note the early return for Boolean clauses, which
precedes (and therefore skips) the composition recursion at the bottom of
the function. -/
def ActionExtractor.calculateRelativizedActions (clause : Clause) (indiv : Finset Int) :
    Finset RelativizedAction :=
  match clause with
  | .boolean _ _ => ∅
  | .deontic sender receiver relativization_type action _ _ composition =>
      ActionExtractor.headRelativizedActions sender receiver relativization_type action indiv
        ∪ (match composition with
           | some (_, other) => ActionExtractor.calculateRelativizedActions other indiv
           | none => ∅)
  | .dynamic sender receiver relativization_type action _ composition =>
      ActionExtractor.headRelativizedActions sender receiver relativization_type action indiv
        ∪ (match composition with
           | some (_, other) => ActionExtractor.calculateRelativizedActions other indiv
           | none => ∅)


/-- `ActionExtractor::calculate_concurrent_relativized_actions`.

The method first elaborates composed actions, then extracts the relativized
action set. The per-clause cache is semantically transparent (it stores the
value this very computation produces, keyed by the elaborated clause) and is
not modelled. `enumerate` stands for the unspecified `FxHashSet` iteration
order in which the set is handed to `ContractUtil` (a faithful instantiation
lists the set without duplicates). When the resulting `source_map` is a
single action, its negation is appended as a synthetic bit and the mask
`1 <<< new_index` is pushed onto `valid_masks`. -/
def ActionExtractor.calculateConcurrentRelativizedActions (conflicts : List Conflict)
    (clause : Clause) (indiv : Finset Int)
    (enumerate : Finset RelativizedAction → List RelativizedAction) :
    Except String CompressedConcurrentActions :=
  let processed := ClauseDecomposer.processComposedActions clause
  let actions := ActionExtractor.calculateRelativizedActions processed indiv
  match ContractUtil.calculateConcurrentRelativizedActions (enumerate actions) conflicts with
  | Except.error e => Except.error e
  | Except.ok compressed =>
      match compressed.source_map with
      | [action] =>
          let neg := RelativizedAction.negationOf action
          let source_map := compressed.source_map ++ [neg]
          let new_index := source_map.length - 1
          let new_mask := 2 ^ new_index
          Except.ok ⟨source_map, compressed.valid_masks ++ [new_mask]⟩
      | _ => Except.ok compressed

/-- `ActionExtractor::extract_individuals`: positive senders and receivers
along the composition spine. -/
def ActionExtractor.extractIndividuals (clause : Clause) : Finset Int :=
  let head := (if 0 < clause.getReceiver then {clause.getReceiver} else (∅ : Finset Int))
    ∪ (if 0 < clause.getSender then {clause.getSender} else ∅)
  match clause with
  | .boolean _ (some (_, other))
  | .deontic _ _ _ _ _ _ (some (_, other))
  | .dynamic _ _ _ _ _ (some (_, other)) =>
      head ∪ ActionExtractor.extractIndividuals other
  | _ => head

/-- `ActionExtractor::calculate_individuals`: the extracted individuals, or
one arbitrary individual of the contract when none was extracted. `pick`
models `iter().next()` on the `FxHashSet` (any faithful instantiation
returns a member when the set is non-empty). -/
def ActionExtractor.calculateIndividuals (clause : Clause) (all_individuals : Finset Int)
    (pick : Finset Int → Option Int) : Finset Int :=
  let i := ActionExtractor.extractIndividuals clause
  if i = ∅ then
    match pick all_individuals with
    | some first => {first}
    | none => i
  else i

/-! ## Conflict searcher (`algorithms/conflict_searcher.rs`) -/

/-- `ConflictSearcher { individuals, conflicts }`. -/
structure ConflictSearcher where
  individuals : Finset Int
  conflicts : List Conflict

/-- `ConflictSearcher::generate_relativized_tags`: Global + Relativized +
one Directed tag per individual, all with the given sender. -/
def ConflictSearcher.generateRelativizedTags (cs : ConflictSearcher)
    (deontic_type : DeonticClauseType) (action : BasicAction) (sender : Int) :
    Finset DeonticTag :=
  {DeonticTag.global deontic_type action, DeonticTag.relativized deontic_type action sender}
    ∪ cs.individuals.image fun receiver =>
        DeonticTag.directed deontic_type action sender receiver

/-- `ConflictSearcher::generate_tags_by_type`: all relativization
instantiations of `tag`'s action with deontic type `deontic_type`, pivoting
on `tag`'s relativization. -/
def ConflictSearcher.generateTagsByType (cs : ConflictSearcher)
    (deontic_type : DeonticClauseType) (tag : DeonticTag) : Finset DeonticTag :=
  match tag.relativization with
  | .Global =>
      {DeonticTag.global deontic_type tag.action}
        ∪ (cs.individuals.image fun i => DeonticTag.relativized deontic_type tag.action i)
        ∪ ((cs.individuals ×ˢ cs.individuals).image fun p =>
            DeonticTag.directed deontic_type tag.action p.1 p.2)
  | .Relativized =>
      {DeonticTag.global deontic_type tag.action,
       DeonticTag.relativized deontic_type tag.action tag.sender}
        ∪ cs.individuals.image fun j =>
            DeonticTag.directed deontic_type tag.action tag.sender j
  | .Directed =>
      {DeonticTag.global deontic_type tag.action,
       DeonticTag.relativized deontic_type tag.action tag.sender,
       DeonticTag.directed deontic_type tag.action tag.sender tag.receiver}

/-- `ConflictSearcher::get_predefined_conflicts`: catalogue entries whose
`a` action equals the tag's action generate expanded tags on the entry's `b`
action for every requested deontic type. -/
def ConflictSearcher.getPredefinedConflicts (cs : ConflictSearcher) (tag : DeonticTag)
    (types : List DeonticClauseType) : Finset DeonticTag :=
  cs.conflicts.foldr (fun conflict acc =>
    if conflict.a = tag.action then
      acc ∪ (types.foldr (fun deontic_type acc2 =>
        acc2 ∪ (match conflict.conflict_type with
          | ConflictType.Global =>
              cs.generateTagsByType deontic_type
                (DeonticTag.global deontic_type conflict.b)
          | ConflictType.Relativized =>
              if tag.relativization = RelativizationType.Global then
                cs.generateTagsByType deontic_type
                  (DeonticTag.global deontic_type conflict.b)
              else
                cs.generateRelativizedTags deontic_type conflict.b tag.sender)) ∅)
    else acc) ∅

/-- `ConflictSearcher::generate_conflict_set` (the F# function): all tags
conflicting with the given tag. -/
def ConflictSearcher.generateConflictSet (cs : ConflictSearcher) (tag : DeonticTag) :
    Finset DeonticTag :=
  match tag.deontic_type with
  | .Obligation =>
      cs.generateTagsByType DeonticClauseType.Prohibition tag
        ∪ cs.getPredefinedConflicts tag
            [DeonticClauseType.Obligation, DeonticClauseType.Permission]
  | .Permission =>
      cs.generateTagsByType DeonticClauseType.Prohibition tag
        ∪ cs.getPredefinedConflicts tag [DeonticClauseType.Obligation]
  | .Prohibition =>
      cs.generateTagsByType DeonticClauseType.Obligation tag
        ∪ cs.generateTagsByType DeonticClauseType.Permission tag

/-- The per-head tag set of `ConflictSearcher::extract_tags`: one tag per
basic action of a Deontic head, shaped by the head's relativization. -/
def ConflictSearcher.headTags (sender receiver : Int) (rt : RelativizationType)
    (action : Action) (deontic_type : DeonticClauseType) : List DeonticTag :=
  let basic_actions := action.getBasicActions
  match rt with
  | .Global =>
      basic_actions.foldr (fun ba s => s.insert (DeonticTag.global deontic_type ba)) []
  | .Relativized =>
      basic_actions.foldr
        (fun ba s => s.insert (DeonticTag.relativized deontic_type ba sender)) []
  | .Directed =>
      basic_actions.foldr
        (fun ba s => s.insert (DeonticTag.directed deontic_type ba sender receiver)) []

/-- `ConflictSearcher::extract_tags` (the Delta function): Deontic heads push
one tag set; the composition tail's tag sets are appended (the composition
type is matched but both arms extend identically). Boolean and Dynamic heads
push nothing. Each `FxHashSet<DeonticTag>` is modelled as a duplicate-free
list (insertion keeps the existing element), so that the `for tag in d1`
scan has a definite order standing in for the unspecified hash-set order. -/
def ConflictSearcher.extractTags (clause : Clause) : List (List DeonticTag) :=
  let head :=
    match clause with
    | .deontic sender receiver relativization_type action deontic_type _ _ =>
        [ConflictSearcher.headTags sender receiver relativization_type action deontic_type]
    | _ => []
  match clause with
  | .boolean _ (some (_, other))
  | .deontic _ _ _ _ _ _ (some (_, other))
  | .dynamic _ _ _ _ _ (some (_, other)) =>
      head ++ ConflictSearcher.extractTags other
  | _ => head

/-! ## Automaton model (`model/automata.rs`) -/

/-- `ConflictInformation` from `model/automata.rs`. -/
structure ConflictInformation where
  tag : DeonticTag
  conflicting_tags : Finset DeonticTag
  other_set : Finset DeonticTag
deriving DecidableEq

/-- `State` from `model/automata.rs`. IDs are drawn from a monotonic counter
(an `AtomicUsize` in Rust, modelled as the automaton's `next_state_id`
field). -/
structure State where
  id : Nat
  clause : Option Clause
  situation : StateSituation
  conflict_information : Option ConflictInformation
  trace : List Nat
deriving DecidableEq

/-- `State::with_auto_id` given the next counter value. -/
def State.withId (id : Nat) (clause : Option Clause) : State :=
  ⟨id, clause, StateSituation.NotChecked, none, []⟩

/-- `Transition` from `model/automata.rs`. `from` is a Lean keyword, hence
`fromId`/`toId`. -/
structure Transition where
  id : Nat
  fromId : Nat
  toId : Nat
  mask : Nat
  source_map : List RelativizedAction
deriving DecidableEq

/-- `Automaton` from `model/automata.rs`. The Rust struct stores states in an
`FxHashSet` hashed by id plus a `state_map: FxHashMap<Clause, usize>` index;
under the constructor's invariant (distinct ids, the index mapping each
stored clause to its unique state) both are equivalent to the id-keyed list
kept here, with clause lookup done by direct search. The two global atomic
id counters become explicit fields. -/
structure Automaton where
  states : List State
  initial : Option State
  transitions : List Transition
  conflict_found : Bool
  next_state_id : Nat
  next_transition_id : Nat

/-- `Automaton::new(contract)`, taking `contract.get_full_contract()` as
input: the initial state (when the contract is non-empty) is registered. -/
def Automaton.new (full_contract : Option Clause) : Automaton :=
  match full_contract with
  | some clause =>
      let initial := State.withId 0 (some clause)
      ⟨[initial], some initial, [], false, 1, 1⟩
  | none => ⟨[], none, [], false, 0, 1⟩

/-- `Automaton::get_state_by_id`. -/
def Automaton.getStateById (a : Automaton) (id : Nat) : Option State :=
  a.states.find? fun s => s.id = id

/-- `Automaton::get_state_by_clause` (via the clause index). -/
def Automaton.getStateByClause (a : Automaton) (clause : Clause) : Option State :=
  a.states.find? fun s => s.clause = some clause

/-- `Automaton::add_state`. -/
def Automaton.addState (a : Automaton) (s : State) : Automaton :=
  { a with states := a.states ++ [s] }

/-- `Automaton::add_transition`. -/
def Automaton.addTransition (a : Automaton) (t : Transition) : Automaton :=
  { a with transitions := a.transitions ++ [t] }

/-- `Automaton::update_state(id, f)`. -/
def Automaton.updateState (a : Automaton) (id : Nat) (f : State → State) : Automaton :=
  { a with states := a.states.map fun s => if s.id = id then f s else s }

/-- `Automaton::replace_state` (replace the state with the same id). -/
def Automaton.replaceState (a : Automaton) (st : State) : Automaton :=
  { a with states := a.states.map fun s => if s.id = st.id then st else s }

/-- `ConflictSearcher::has_conflict`, split into the pure search
(`findConflict`) and the state update. The nested `for` loops scan ordered
pairs of distinct tag-set indices, then the tags of the first set, returning
at the first non-empty intersection between a tag's conflict set and the
second tag set; each per-conjunct tag set is scanned in its
`ConflictSearcher.extractTags` construction order (standing in for the
unspecified `FxHashSet` iteration; which member is found first only affects
the recorded `ConflictInformation`, not whether one is found). -/
def ConflictSearcher.findConflict (cs : ConflictSearcher)
    (delta : List (List DeonticTag)) :
    Option (DeonticTag × Finset DeonticTag × Finset DeonticTag) :=
  delta.enum.findSome? fun p1 =>
    delta.enum.findSome? fun p2 =>
      if p1.1 = p2.1 then none
      else
        p1.2.findSome? fun tag =>
          let conflict_set := cs.generateConflictSet tag
          let intersection := conflict_set ∩ p2.2.toFinset
          if intersection = ∅ then none
          else some (tag, intersection, p2.2.toFinset)

/-- `ConflictSearcher::has_conflict`: `true` plus the Conflicting state when
a conflict is found; otherwise (including the clause-less state) `false`
with the situation set to ConflictFree. -/
def ConflictSearcher.hasConflict (cs : ConflictSearcher) (state : State) : Bool × State :=
  match state.clause with
  | some clause =>
      let processed_clause := ClauseDecomposer.processComposedActions clause
      let delta := ConflictSearcher.extractTags processed_clause
      match cs.findConflict delta with
      | some (tag, intersection, d2) =>
          (true, { state with
            situation := StateSituation.Conflicting,
            conflict_information := some ⟨tag, intersection, d2⟩ })
      | none => (false, { state with situation := StateSituation.ConflictFree })
  | none => (false, { state with situation := StateSituation.ConflictFree })

/-! ## Automaton constructor (`algorithms/automata_constructor.rs`) -/

/-- The `RunConfiguration` fields the constructor reads. -/
structure RunConfiguration where
  continue_on_conflict : Bool
  use_prunning : Bool

/-- The constructor's per-run context: configuration, the contract's
individuals and conflicts, and the two unspecified-order parameters
(`enumerate` for hash-set-to-vector iteration in the action extractor,
`pick` for `iter().next()` in individuals pruning). -/
structure ConstructorCtx where
  config : RunConfiguration
  contract_individuals : Finset Int
  conflicts : List Conflict
  enumerate : Finset RelativizedAction → List RelativizedAction
  pick : Finset Int → Option Int

/-- `AutomataConstructor::get_individuals`. -/
def ConstructorCtx.getIndividuals (ctx : ConstructorCtx) (clause : Clause) : Finset Int :=
  if ctx.config.use_prunning then
    ActionExtractor.calculateIndividuals clause ctx.contract_individuals ctx.pick
  else ctx.contract_individuals

/-- `AutomataConstructor::mark_boolean_state`. -/
def Automaton.markBooleanState (a : Automaton) (state_id : Nat) (value : Bool) : Automaton :=
  a.updateState state_id fun s =>
    { s with situation :=
        if value then StateSituation.Satisfaction else StateSituation.Violating }

/-- `AutomataConstructor::check_conflict_without_clone`: run the conflict
searcher on the state and put the updated state back. -/
def ConstructorCtx.checkConflict (ctx : ConstructorCtx) (indiv : Finset Int)
    (state_id : Nat) (a : Automaton) : Bool × Automaton :=
  match a.getStateById state_id with
  | some st =>
      let cs : ConflictSearcher := ⟨indiv, ctx.conflicts⟩
      let (has_conflict, st2) := cs.hasConflict st
      (has_conflict, a.replaceState st2)
  | none => (false, a)

mutual

/-- `AutomataConstructor::construct_automaton`, fuel-indexed (the Rust
recursion terminates only by exhausting fresh clauses; exhausted fuel
returns the automaton unchanged). One call: fetch the state's clause (a
missing clause marks the state as a `true` Boolean); mark Boolean states;
run the conflict search, recording `conflict_found`; stop if a conflict was
found and `continue_on_conflict` is off; otherwise enumerate the valid
masks and integrate each successor. The Rust batches of 500 masks only
parallelize `decompose`, which reads nothing from the automaton, and the
batch results are integrated sequentially in mask order, so the whole loop
is the sequential fold modelled by `integrateMasks`. -/
def construct (ctx : ConstructorCtx) (decompose_fuel : Nat) :
    Nat → Nat → Automaton → Except String Automaton
  | 0, _, a => Except.ok a
  | fuel + 1, state_id, a =>
      match (a.getStateById state_id).bind (fun s => s.clause) with
      | none => Except.ok (a.markBooleanState state_id true)
      | some clause =>
          let individuals := ctx.getIndividuals clause
          match clause with
          | .boolean value _ => Except.ok (a.markBooleanState state_id value)
          | _ =>
              let (has_conflict, a) := ctx.checkConflict individuals state_id a
              let a := if has_conflict then { a with conflict_found := true } else a
              let should_stop := a.conflict_found && !ctx.config.continue_on_conflict
              if should_stop then Except.ok a
              else
                match ActionExtractor.calculateConcurrentRelativizedActions ctx.conflicts
                    clause individuals ctx.enumerate with
                | Except.error e => Except.error e
                | Except.ok compressed =>
                    integrateMasks ctx decompose_fuel fuel state_id clause individuals
                      compressed.source_map compressed.valid_masks a
termination_by fuel _ _ => (fuel, 0, 0)

/-- The mask-integration loop of `construct_automaton`: decode the mask over
`source_map`, decompose the state's clause under the decoded set, then
either link to the existing state with that successor clause or create a
fresh state (recording the transition in its trace) and recurse into it. -/
def integrateMasks (ctx : ConstructorCtx) (decompose_fuel : Nat) :
    Nat → Nat → Clause → Finset Int → List RelativizedAction → List Nat → Automaton →
      Except String Automaton
  | _, _, _, _, _, [], a => Except.ok a
  | fuel, state_id, clause, individuals, source_map, mask :: masks, a =>
      let temp_set := decodeMask source_map mask
      let decomposer : ClauseDecomposer := ⟨individuals, true⟩
      let next_clause := decomposer.decompose decompose_fuel clause temp_set
      match a.getStateByClause next_clause with
      | some existing_state =>
          let t : Transition :=
            ⟨a.next_transition_id, state_id, existing_state.id, mask, source_map⟩
          let a := { a.addTransition t with next_transition_id := a.next_transition_id + 1 }
          integrateMasks ctx decompose_fuel fuel state_id clause individuals source_map masks a
      | none =>
          let new_state := State.withId a.next_state_id (some next_clause)
          let a2 := { a.addState new_state with next_state_id := a.next_state_id + 1 }
          let t : Transition :=
            ⟨a2.next_transition_id, state_id, new_state.id, mask, source_map⟩
          let a3 := { a2.addTransition t with
            next_transition_id := a2.next_transition_id + 1 }
          let a4 := a3.updateState new_state.id fun s => { s with trace := s.trace ++ [t.id] }
          match construct ctx decompose_fuel fuel new_state.id a4 with
          | Except.error e => Except.error e
          | Except.ok a5 =>
              integrateMasks ctx decompose_fuel fuel state_id clause individuals source_map
                masks a5
termination_by fuel _ _ _ _ masks _ => (fuel, 1, masks.length)

end


/-! ## Theorems -/

/-- One conflict's pass is preserved by shrinking the action set. -/
theorem conflictPasses_subset {S S' : Finset RelativizedAction} {c : Conflict}
    (hsub : S' ⊆ S) (h : ContractUtil.conflictPasses S c = true) :
    ContractUtil.conflictPasses S' c = true := by
  unfold ContractUtil.conflictPasses at h ⊢
  by_cases ha' : (S'.filter fun ra => ra.action.value = c.a.value).card = 0
  · simp [ha']
  · by_cases hb' : (S'.filter fun ra => ra.action.value = c.b.value).card = 0
    · simp [ha', hb']
    · have hfa := Finset.card_le_card
        (Finset.filter_subset_filter (fun ra => ra.action.value = c.a.value) hsub)
      have hfb := Finset.card_le_card
        (Finset.filter_subset_filter (fun ra => ra.action.value = c.b.value) hsub)
      have ha : ¬(S.filter fun ra => ra.action.value = c.a.value).card = 0 := by omega
      have hb : ¬(S.filter fun ra => ra.action.value = c.b.value).card = 0 := by omega
      simp only [ha, hb, if_false, ha', hb'] at h ⊢
      cases hty : c.conflict_type with
      | Global => simp [hty] at h
      | Relativized =>
          simp only [hty, reduceCtorEq, if_false, if_true] at h ⊢
          simp only [Bool.not_eq_true', decide_eq_false_iff_not] at h
          simp only [Bool.not_eq_true', decide_eq_false_iff_not]
          intro hex
          apply h
          obtain ⟨ra_a, hra_a, ra_b, hra_b, hprop⟩ := hex
          refine ⟨ra_a, ?_, ra_b, hsub hra_b, hprop⟩
          have := Finset.mem_of_mem_filter ra_a hra_a
          have hv := (Finset.mem_filter.mp hra_a).2
          exact Finset.mem_filter.mpr ⟨hsub (Finset.mem_of_mem_filter ra_a hra_a), hv⟩

/-- C5: validity w.r.t. the conflict catalogue is subset-monotone downward —
a valid set stays valid under passing to any non-empty subset — and the
empty set is never valid (`ContractUtil::is_valid`). -/
theorem isValid_subset_monotone (conflicts : List Conflict)
    (S S' : Finset RelativizedAction)
    (hvalid : ContractUtil.isValid S conflicts = true)
    (hsub : S' ⊆ S) (hne : S' ≠ ∅) :
    ContractUtil.isValid S' conflicts = true ∧
      ContractUtil.isValid ∅ conflicts = false := by
  constructor
  · unfold ContractUtil.isValid at hvalid ⊢
    have hSne : ¬S = ∅ := by
      intro hS
      exact hne (Finset.subset_empty.mp (hS ▸ hsub))
    simp only [hSne, if_false, List.all_eq_true] at hvalid
    simp only [hne, if_false, List.all_eq_true]
    intro c hc
    exact conflictPasses_subset hsub (hvalid c hc)
  · simp [ContractUtil.isValid]

/-- Witness for `isValid_subset_monotone` at a concrete catalogue and sets. -/
theorem isValid_subset_monotone_witness :
    ContractUtil.isValid
        {RelativizedAction.new 1 (BasicAction.withValue 5) 2,
         RelativizedAction.new 2 (BasicAction.withValue 6) 1}
        [⟨BasicAction.withValue 5, BasicAction.withValue 7, ConflictType.Global⟩] = true ∧
      ({RelativizedAction.new 1 (BasicAction.withValue 5) 2} :
          Finset RelativizedAction) ⊆
        {RelativizedAction.new 1 (BasicAction.withValue 5) 2,
         RelativizedAction.new 2 (BasicAction.withValue 6) 1} ∧
      ({RelativizedAction.new 1 (BasicAction.withValue 5) 2} :
          Finset RelativizedAction) ≠ ∅ ∧
      (ContractUtil.isValid {RelativizedAction.new 1 (BasicAction.withValue 5) 2}
          [⟨BasicAction.withValue 5, BasicAction.withValue 7, ConflictType.Global⟩] = true ∧
        ContractUtil.isValid ∅
          [⟨BasicAction.withValue 5, BasicAction.withValue 7, ConflictType.Global⟩] = false) :=
  ⟨by decide, by decide, by decide,
    isValid_subset_monotone
      [⟨BasicAction.withValue 5, BasicAction.withValue 7, ConflictType.Global⟩]
      {RelativizedAction.new 1 (BasicAction.withValue 5) 2,
       RelativizedAction.new 2 (BasicAction.withValue 6) 1}
      {RelativizedAction.new 1 (BasicAction.withValue 5) 2}
      (by decide) (by decide) (by decide)⟩

/-- C9 counterexample: the claim says `Conflict(a, b, τ)` equals
`Conflict(b, a, τ)` for all basic actions; with `a = value 1` and
`b = value 2` the derived field-wise equality refutes it. -/
theorem conflict_eq_not_symmetric_counterexample :
    Conflict.mk (BasicAction.withValue 1) (BasicAction.withValue 2) ConflictType.Global ≠
      Conflict.mk (BasicAction.withValue 2) (BasicAction.withValue 1) ConflictType.Global := by
  decide

/-- C9 (amended): `Conflict` equality is the derived field-wise equality, so
swapping the two actions yields an equal value only when the actions are
equal; the custom hash orders the pair by action `value` before hashing, so
swapped conflicts feed the hasher identical streams whenever the two values
differ. -/
theorem conflict_hash_symmetric (a b : BasicAction) (t : ConflictType)
    (hv : a.value ≠ b.value) :
    (Conflict.mk a b t).hashStream = (Conflict.mk b a t).hashStream ∧
      (Conflict.mk a b t = Conflict.mk b a t ↔ a = b) := by
  constructor
  · rcases lt_or_gt_of_ne hv with hlt | hgt
    · simp [Conflict.hashStream, le_of_lt hlt, not_le.mpr hlt]
    · simp [Conflict.hashStream, le_of_lt hgt, not_le.mpr hgt]
  · exact ⟨fun h => congrArg Conflict.a h, fun h => by rw [h]⟩

/-- Witness for `conflict_hash_symmetric` at concrete actions. -/
theorem conflict_hash_symmetric_witness :
    (BasicAction.withValue 1).value ≠ (BasicAction.withValue 2).value ∧
      ((Conflict.mk (BasicAction.withValue 1) (BasicAction.withValue 2)
          ConflictType.Global).hashStream =
        (Conflict.mk (BasicAction.withValue 2) (BasicAction.withValue 1)
          ConflictType.Global).hashStream ∧
        (Conflict.mk (BasicAction.withValue 1) (BasicAction.withValue 2)
            ConflictType.Global =
          Conflict.mk (BasicAction.withValue 2) (BasicAction.withValue 1)
            ConflictType.Global ↔
          BasicAction.withValue 1 = BasicAction.withValue 2)) :=
  ⟨by decide, conflict_hash_symmetric _ _ _ (by decide)⟩

/-- C10: on a state with no clause, `has_conflict` reports no conflict, sets
the situation to ConflictFree, and changes nothing else — in particular the
conflict information stays as it was. -/
theorem hasConflict_no_clause (cs : ConflictSearcher) (st : State)
    (h : st.clause = none) :
    (cs.hasConflict st).1 = false ∧
      (cs.hasConflict st).2 = { st with situation := StateSituation.ConflictFree } ∧
      (cs.hasConflict st).2.conflict_information = st.conflict_information := by
  unfold ConflictSearcher.hasConflict
  rw [h]
  exact ⟨rfl, rfl, rfl⟩

/-- Witness for `hasConflict_no_clause` at a concrete searcher and state. -/
theorem hasConflict_no_clause_witness :
    (State.mk 3 none StateSituation.NotChecked none []).clause = none ∧
      ((ConflictSearcher.mk ∅ []).hasConflict
          (State.mk 3 none StateSituation.NotChecked none [])).1 = false ∧
      ((ConflictSearcher.mk ∅ []).hasConflict
          (State.mk 3 none StateSituation.NotChecked none [])).2 =
        { State.mk 3 none StateSituation.NotChecked none [] with
            situation := StateSituation.ConflictFree } ∧
      ((ConflictSearcher.mk ∅ []).hasConflict
          (State.mk 3 none StateSituation.NotChecked none [])).2.conflict_information =
        (State.mk 3 none StateSituation.NotChecked none []).conflict_information :=
  ⟨rfl, hasConflict_no_clause _ _ rfl⟩


/-- C1: the residual of an elaborated Deontic head with a basic, non-skip,
non-violation action under the chosen set `S`, with `Rh` the head's
relativized action set and `X = S ∩ Rh`: an Obligation is `⊤` exactly when
satisfied (`X ≠ ∅` for a Relativized head, `Rh ⊆ S` for a Global or Directed
head) and otherwise the penalty clause if defined, else `⊥`; a Prohibition is
`⊤` exactly when `X = ∅` with the same fallback shape; a Permission is
always `⊤` (`ClauseDecomposer::decompose_deontic`). -/
theorem decomposeDeontic_residual (D : ClauseDecomposer) (se re : Int)
    (rt : RelativizationType) (ba : BasicAction) (dt : DeonticClauseType)
    (pen : Option Clause) (comp : Option (ClauseCompositionType × Clause))
    (S : Finset RelativizedAction)
    (hskip : ba.skip = false) (hviol : ba.violation = false) :
    D.decomposeDeontic (Clause.deontic se re rt (.basic ba) dt pen comp) S =
      (let Rh := D.generateRelativizedActions
        (Clause.deontic se re rt (.basic ba) dt pen comp)
       let X := S ∩ Rh
       match dt with
       | .Obligation =>
           match rt with
           | .Relativized =>
               if X ≠ ∅ then Clause.booleanTrue else pen.getD Clause.booleanFalse
           | .Global | .Directed =>
               if Rh ⊆ S then Clause.booleanTrue else pen.getD Clause.booleanFalse
       | .Prohibition =>
           if X = ∅ then Clause.booleanTrue else pen.getD Clause.booleanFalse
       | .Permission => Clause.booleanTrue) := by
  unfold ClauseDecomposer.decomposeDeontic
  simp only [hskip, hviol, Bool.false_eq_true, or_self, if_false]
  rw [Finset.filter_mem_eq_inter]
  cases dt with
  | Obligation =>
      cases rt with
      | Relativized =>
          simp only [ne_eq, decide_not]
          split_ifs with h1 h2 h2 <;> simp_all
      | Global =>
          simp only []
          split_ifs with h1 h2 h2 <;> simp_all
      | Directed =>
          simp only []
          split_ifs with h1 h2 h2 <;> simp_all
  | Prohibition => rfl
  | Permission => rfl

/-- Witness for `decomposeDeontic_residual` at a concrete decomposer,
obligation head and action set. -/
theorem decomposeDeontic_residual_witness :
    (BasicAction.withValue 9).skip = false ∧
      (BasicAction.withValue 9).violation = false ∧
      (ClauseDecomposer.mk {1, 2} true).decomposeDeontic
          (Clause.deontic 1 2 RelativizationType.Directed
            (.basic (BasicAction.withValue 9)) DeonticClauseType.Obligation none none)
          {RelativizedAction.new 1 (BasicAction.withValue 9) 2} =
        (let Rh := (ClauseDecomposer.mk {1, 2} true).generateRelativizedActions
          (Clause.deontic 1 2 RelativizationType.Directed
            (.basic (BasicAction.withValue 9)) DeonticClauseType.Obligation none none)
         if (Rh ⊆ {RelativizedAction.new 1 (BasicAction.withValue 9) 2}) then
           Clause.booleanTrue
         else (none : Option Clause).getD Clause.booleanFalse) := by
  refine ⟨rfl, rfl, ?_⟩
  exact decomposeDeontic_residual (ClauseDecomposer.mk {1, 2} true) 1 2
    RelativizationType.Directed (BasicAction.withValue 9) DeonticClauseType.Obligation
    none none {RelativizedAction.new 1 (BasicAction.withValue 9) 2} rfl rfl


/-- Membership is preserved by the popcount-descending insertion. -/
theorem mem_insertPopcountDesc {x y : Nat} {l : List Nat} :
    y ∈ insertPopcountDesc x l ↔ y = x ∨ y ∈ l := by
  induction l with
  | nil => simp [insertPopcountDesc]
  | cons a l ih =>
      simp only [insertPopcountDesc]
      split_ifs with h
      · simp [List.mem_cons]
      · simp only [List.mem_cons, ih]
        tauto

/-- Membership is preserved by the popcount-descending sort. -/
theorem mem_sortByPopcountDesc {y : Nat} {l : List Nat} :
    y ∈ sortByPopcountDesc l ↔ y ∈ l := by
  induction l with
  | nil => simp [sortByPopcountDesc]
  | cons a l ih => simp [sortByPopcountDesc, mem_insertPopcountDesc, ih]

/-- C7: `ContractUtil::calculate_concurrent_relativized_actions` fails with
the CRITICAL capacity message when more than 30 relativized actions are
given (aborting the analysis), and otherwise succeeds with the full `2^n`
subset enumeration: the valid masks are exactly the masks below `2^n` whose
decoded subsets pass the conflict catalogue. -/
theorem capacity_and_full_enumeration (ras : List RelativizedAction)
    (conflicts : List Conflict) :
    (30 < ras.length →
      ContractUtil.calculateConcurrentRelativizedActions ras conflicts =
        Except.error
          ("CRITICAL: Can't calculate the set of concurrent relativized actions. (Number of actions "
            ++ toString ras.length ++ "). Maximum supported is 30.")) ∧
    (ras.length ≤ 30 →
      ∃ cca, ContractUtil.calculateConcurrentRelativizedActions ras conflicts =
          Except.ok cca ∧
        cca.source_map = ras ∧
        ∀ mask, mask ∈ cca.valid_masks ↔
          (mask < 2 ^ ras.length ∧
            ContractUtil.isValid (decodeMask ras mask) conflicts = true)) := by
  constructor
  · intro hgt
    unfold ContractUtil.calculateConcurrentRelativizedActions
    rw [if_pos hgt]
  · intro hle
    unfold ContractUtil.calculateConcurrentRelativizedActions
    rw [if_neg (by omega)]
    refine ⟨_, rfl, rfl, ?_⟩
    intro mask
    rw [mem_sortByPopcountDesc, List.mem_filter, List.mem_range]

/-- Witness for `capacity_and_full_enumeration`: the capacity branch at a
31-action list and the enumeration branch at a 1-action list. -/
theorem capacity_and_full_enumeration_witness :
    (ContractUtil.calculateConcurrentRelativizedActions
        (List.replicate 31 (RelativizedAction.new 1 (BasicAction.withValue 1) 1)) [] =
      Except.error
        ("CRITICAL: Can't calculate the set of concurrent relativized actions. (Number of actions "
          ++ toString (List.replicate 31
              (RelativizedAction.new 1 (BasicAction.withValue 1) 1)).length
          ++ "). Maximum supported is 30.")) ∧
    (∃ cca, ContractUtil.calculateConcurrentRelativizedActions
        [RelativizedAction.new 1 (BasicAction.withValue 1) 1] [] = Except.ok cca ∧
      cca.source_map = [RelativizedAction.new 1 (BasicAction.withValue 1) 1] ∧
      ∀ mask, mask ∈ cca.valid_masks ↔
        (mask < 2 ^ ([RelativizedAction.new 1 (BasicAction.withValue 1) 1] :
            List RelativizedAction).length ∧
          ContractUtil.isValid
            (decodeMask [RelativizedAction.new 1 (BasicAction.withValue 1) 1] mask) [] =
            true)) :=
  ⟨(capacity_and_full_enumeration
      (List.replicate 31 (RelativizedAction.new 1 (BasicAction.withValue 1) 1)) []).1
      (by decide),
   (capacity_and_full_enumeration
      [RelativizedAction.new 1 (BasicAction.withValue 1) 1] []).2 (by decide)⟩


/-- C3 counterexample: a clause with exactly one firable relativized action
(a directed obligation over one individual; the hash-set enumeration of a
singleton is its one listing) whose catalogue holds a self-conflict on that
action. The synthetic negation bit is appended and the mask `1<<1 = 2`
added, but the lone-action mask `1` itself is invalid, so `valid_masks`
ends up with a single element — refuting `|valid_masks| ≥ 2`. -/
theorem single_firable_masks_counterexample :
    ActionExtractor.calculateRelativizedActions
        (ClauseDecomposer.processComposedActions
          (Clause.deontic 1 1 RelativizationType.Directed
            (.basic (BasicAction.withValue 5)) DeonticClauseType.Obligation none none)) {1} =
      {RelativizedAction.new 1 (BasicAction.withValue 5) 1} ∧
    ActionExtractor.calculateConcurrentRelativizedActions
        [⟨BasicAction.withValue 5, BasicAction.withValue 5, ConflictType.Global⟩]
        (Clause.deontic 1 1 RelativizationType.Directed
          (.basic (BasicAction.withValue 5)) DeonticClauseType.Obligation none none)
        {1} (fun _ => [RelativizedAction.new 1 (BasicAction.withValue 5) 1]) =
      Except.ok ⟨[RelativizedAction.new 1 (BasicAction.withValue 5) 1,
        RelativizedAction.negationOf (RelativizedAction.new 1 (BasicAction.withValue 5) 1)],
        [2]⟩ ∧
    ¬(2 ≤ ([2] : List Nat).length) :=
  ⟨by decide, by rfl, by decide⟩

/-- C3 (amended): whenever the enumeration of a clause's firable relativized
actions yields exactly one action `a`, the enumerator appends the negation
of `a` as a synthetic extra `source_map` bit and pushes the mask
`1<<new_index = 2` onto `valid_masks`; consequently the synthetic-negation
mask is always present, and `|valid_masks| ≥ 2` whenever the singleton
`{a}` is itself valid for the catalogue (which fails exactly for catalogue
self-conflicts on `a`'s value, as in the counterexample). -/
theorem single_firable_action_synthetic (conflicts : List Conflict) (clause : Clause)
    (indiv : Finset Int) (enumerate : Finset RelativizedAction → List RelativizedAction)
    (a : RelativizedAction)
    (h : enumerate (ActionExtractor.calculateRelativizedActions
        (ClauseDecomposer.processComposedActions clause) indiv) = [a]) :
    ActionExtractor.calculateConcurrentRelativizedActions conflicts clause indiv enumerate =
      Except.ok ⟨[a, RelativizedAction.negationOf a],
        (if ContractUtil.isValid {a} conflicts = true then [1] else []) ++ [2]⟩ ∧
    (2 : Nat) ∈ (if ContractUtil.isValid {a} conflicts = true then [1] else []) ++ [2] ∧
    (ContractUtil.isValid {a} conflicts = true →
      2 ≤ ((if ContractUtil.isValid {a} conflicts = true then [1] else []) ++
        [2] : List Nat).length) := by
  refine ⟨?_, by simp, ?_⟩
  · have hd1 : decodeMask [a] 1 = {a} := rfl
    have hv0 : ContractUtil.isValid (decodeMask [a] 0) conflicts = false := by
      show ContractUtil.isValid ∅ conflicts = false
      simp [ContractUtil.isValid]
    have hcalc : ContractUtil.calculateConcurrentRelativizedActions [a] conflicts =
        Except.ok ⟨[a], if ContractUtil.isValid {a} conflicts = true then [1] else []⟩ := by
      unfold ContractUtil.calculateConcurrentRelativizedActions
      rw [if_neg (by norm_num)]
      have hrange : List.range (2 ^ ([a] : List RelativizedAction).length) = [0, 1] := rfl
      rw [hrange]
      by_cases hval : ContractUtil.isValid {a} conflicts = true
      · simp [List.filter, hv0, hd1, hval, sortByPopcountDesc, insertPopcountDesc]
      · simp only [Bool.not_eq_true] at hval
        simp [List.filter, hv0, hd1, hval, sortByPopcountDesc]
    unfold ActionExtractor.calculateConcurrentRelativizedActions
    simp only [h, hcalc]
    rfl
  · intro hval
    rw [if_pos hval]
    simp

/-- Witness for `single_firable_action_synthetic` at a concrete clause,
catalogue and enumeration. -/
theorem single_firable_action_synthetic_witness :
    ((fun _ => [RelativizedAction.new 1 (BasicAction.withValue 6) 1]) :
        Finset RelativizedAction → List RelativizedAction)
      (ActionExtractor.calculateRelativizedActions
        (ClauseDecomposer.processComposedActions
          (Clause.deontic 1 1 RelativizationType.Directed
            (.basic (BasicAction.withValue 6)) DeonticClauseType.Permission none none)) {1}) =
      [RelativizedAction.new 1 (BasicAction.withValue 6) 1] ∧
    (ActionExtractor.calculateConcurrentRelativizedActions []
        (Clause.deontic 1 1 RelativizationType.Directed
          (.basic (BasicAction.withValue 6)) DeonticClauseType.Permission none none)
        {1} (fun _ => [RelativizedAction.new 1 (BasicAction.withValue 6) 1]) =
      Except.ok ⟨[RelativizedAction.new 1 (BasicAction.withValue 6) 1,
        RelativizedAction.negationOf (RelativizedAction.new 1 (BasicAction.withValue 6) 1)],
        (if ContractUtil.isValid {RelativizedAction.new 1 (BasicAction.withValue 6) 1} [] =
            true then [1] else []) ++ [2]⟩ ∧
      (2 : Nat) ∈ (if ContractUtil.isValid
          {RelativizedAction.new 1 (BasicAction.withValue 6) 1} [] = true then [1]
        else []) ++ [2] ∧
      (ContractUtil.isValid {RelativizedAction.new 1 (BasicAction.withValue 6) 1} [] = true →
        2 ≤ ((if ContractUtil.isValid
            {RelativizedAction.new 1 (BasicAction.withValue 6) 1} [] = true then [1]
          else []) ++ [2] : List Nat).length)) :=
  ⟨rfl, single_firable_action_synthetic [] _ {1} _ _ rfl⟩


/-- All composition-spine heads of a clause carry basic actions (Boolean
heads qualify); penalties and dynamic inner clauses are not inspected,
mirroring the traversal of `process_composed_actions`. -/
def Clause.headsBasic : Clause → Bool
  | .boolean _ none => true
  | .boolean _ (some (_, other)) => other.headsBasic
  | .deontic _ _ _ (.basic _) _ _ none => true
  | .deontic _ _ _ (.basic _) _ _ (some (_, other)) => other.headsBasic
  | .deontic _ _ _ (.composed ..) _ _ _ => false
  | .dynamic _ _ _ (.basic _) _ none => true
  | .dynamic _ _ _ (.basic _) _ (some (_, other)) => other.headsBasic
  | .dynamic _ _ _ (.composed ..) _ _ => false

/-- Elaboration is the identity on clauses whose spine heads are all basic. -/
theorem processComposedActions_of_headsBasic {c : Clause} (h : c.headsBasic = true) :
    ClauseDecomposer.processComposedActions c = c := by
  induction c using Clause.headsBasic.induct with
  | case1 v => rfl
  | case2 v ct other ih =>
      simp only [Clause.headsBasic] at h
      simp [ClauseDecomposer.processComposedActions, ClauseDecomposer.appendComposition,
        ClauseDecomposer.processSingleComposedActions, Clause.setCompositionToNone,
        Clause.setComposition, ih h]
  | case3 a b c d e f => rfl
  | case4 s r rt ba dt p ct other ih =>
      simp only [Clause.headsBasic] at h
      simp [ClauseDecomposer.processComposedActions, ClauseDecomposer.appendComposition,
        ClauseDecomposer.processSingleComposedActions, Clause.setCompositionToNone,
        Clause.setComposition, ih h]
  | case5 => simp [Clause.headsBasic] at h
  | case6 => rfl
  | case7 s r rt ba i ct other ih =>
      simp only [Clause.headsBasic] at h
      simp [ClauseDecomposer.processComposedActions, ClauseDecomposer.appendComposition,
        ClauseDecomposer.processSingleComposedActions, Clause.setCompositionToNone,
        Clause.setComposition, ih h]
  | case8 => simp [Clause.headsBasic] at h

/-- C4 counterexample: one elaboration pass removes only the outermost
action operator of a head, so for the obligation `O((a & b) & c)` the first
pass yields `O(a & b) ∧ O(c)` — whose head is still composed — and a second
pass rewrites further: `elaborate(elaborate(φ)) ≠ elaborate(φ)`. -/
theorem elaborate_not_idempotent_counterexample :
    ClauseDecomposer.processComposedActions (ClauseDecomposer.processComposedActions
      (Clause.deontic 1 2 RelativizationType.Directed
        (Action.composed
          (some (Action.composed (some (.basic (BasicAction.withValue 1)))
            (some (.basic (BasicAction.withValue 2))) ActionOperator.Concurrency))
          (some (.basic (BasicAction.withValue 3))) ActionOperator.Concurrency)
        DeonticClauseType.Obligation none none)) ≠
      ClauseDecomposer.processComposedActions
        (Clause.deontic 1 2 RelativizationType.Directed
          (Action.composed
            (some (Action.composed (some (.basic (BasicAction.withValue 1)))
              (some (.basic (BasicAction.withValue 2))) ActionOperator.Concurrency))
            (some (.basic (BasicAction.withValue 3))) ActionOperator.Concurrency)
          DeonticClauseType.Obligation none none) := by
  decide

/-- C4 (amended): composed-action elaboration is the identity — hence
idempotent — on every clause whose composition-spine heads all carry basic
actions; in general one pass eliminates only the outermost operator of each
head's action, so `elaborate(elaborate(φ)) = elaborate(φ)` fails for nested
composed actions (see the counterexample). -/
theorem elaborate_identity_on_basic_heads (c : Clause) (h : c.headsBasic = true) :
    ClauseDecomposer.processComposedActions c = c ∧
      ClauseDecomposer.processComposedActions (ClauseDecomposer.processComposedActions c) =
        ClauseDecomposer.processComposedActions c := by
  have h1 := processComposedActions_of_headsBasic h
  exact ⟨h1, by rw [h1, h1]⟩

/-- Witness for `elaborate_identity_on_basic_heads` on a two-head spine with
basic actions. -/
theorem elaborate_identity_on_basic_heads_witness :
    (Clause.deontic 1 2 RelativizationType.Directed (.basic (BasicAction.withValue 1))
        DeonticClauseType.Obligation none
        (some (ClauseCompositionType.And,
          Clause.dynamic 1 2 RelativizationType.Directed (.basic (BasicAction.withValue 2))
            Clause.booleanTrue none))).headsBasic = true ∧
      (ClauseDecomposer.processComposedActions
          (Clause.deontic 1 2 RelativizationType.Directed (.basic (BasicAction.withValue 1))
            DeonticClauseType.Obligation none
            (some (ClauseCompositionType.And,
              Clause.dynamic 1 2 RelativizationType.Directed
                (.basic (BasicAction.withValue 2)) Clause.booleanTrue none))) =
        Clause.deontic 1 2 RelativizationType.Directed (.basic (BasicAction.withValue 1))
          DeonticClauseType.Obligation none
          (some (ClauseCompositionType.And,
            Clause.dynamic 1 2 RelativizationType.Directed (.basic (BasicAction.withValue 2))
              Clause.booleanTrue none)) ∧
        ClauseDecomposer.processComposedActions (ClauseDecomposer.processComposedActions
          (Clause.deontic 1 2 RelativizationType.Directed (.basic (BasicAction.withValue 1))
            DeonticClauseType.Obligation none
            (some (ClauseCompositionType.And,
              Clause.dynamic 1 2 RelativizationType.Directed
                (.basic (BasicAction.withValue 2)) Clause.booleanTrue none)))) =
          ClauseDecomposer.processComposedActions
            (Clause.deontic 1 2 RelativizationType.Directed (.basic (BasicAction.withValue 1))
              DeonticClauseType.Obligation none
              (some (ClauseCompositionType.And,
                Clause.dynamic 1 2 RelativizationType.Directed
                  (.basic (BasicAction.withValue 2)) Clause.booleanTrue none)))) :=
  ⟨by decide, elaborate_identity_on_basic_heads _ (by decide)⟩


/-- The composition-spine heads of a clause, each with its composition
stripped, truncated at (and excluding) the first Boolean head. -/
def Clause.spineHeadsUntilBoolean : Clause → List Clause
  | .boolean _ _ => []
  | .deontic s r rt a d p none => [.deontic s r rt a d p none]
  | .deontic s r rt a d p (some (_, other)) =>
      .deontic s r rt a d p none :: other.spineHeadsUntilBoolean
  | .dynamic s r rt a i none => [.dynamic s r rt a i none]
  | .dynamic s r rt a i (some (_, other)) =>
      .dynamic s r rt a i none :: other.spineHeadsUntilBoolean

/-- C6 counterexample: `calculate_relativized_actions` returns the empty set
for a Boolean-headed clause before ever reaching the composition recursion,
so a Boolean head carrying an `And` tail with a directed obligation
contributes nothing — even though the tail alone extracts a relativized
action. -/
theorem boolean_head_drops_tail_counterexample :
    ActionExtractor.calculateRelativizedActions
        (Clause.boolean true (some (ClauseCompositionType.And,
          Clause.deontic 1 2 RelativizationType.Directed
            (.basic (BasicAction.withValue 7)) DeonticClauseType.Obligation none none)))
        {1, 2} = ∅ ∧
      ActionExtractor.calculateRelativizedActions
        (Clause.deontic 1 2 RelativizationType.Directed
          (.basic (BasicAction.withValue 7)) DeonticClauseType.Obligation none none)
        {1, 2} = {RelativizedAction.new 1 (BasicAction.withValue 7) 2} := by
  exact ⟨by decide, by decide⟩

/-- C6 (amended): the extractor unions per-head results along the
composition spine only while heads are non-Boolean: `R(φ)` is the union of
the extractions of the spine heads up to — and excluding — the first
Boolean head, so a Boolean head ends the recursion immediately (its
composition tail is ignored) and contributes the empty set
(`ActionExtractor::calculate_relativized_actions`). -/
theorem calculateRelativizedActions_spine (c : Clause) (indiv : Finset Int) :
    ActionExtractor.calculateRelativizedActions c indiv =
      ((c.spineHeadsUntilBoolean).map
        (fun h => ActionExtractor.calculateRelativizedActions h indiv)).foldr (· ∪ ·) ∅ := by
  induction c using Clause.spineHeadsUntilBoolean.induct with
  | case1 v comp => rfl
  | case2 s r rt a d p =>
      simp [Clause.spineHeadsUntilBoolean]
  | case3 s r rt a d p ct other ih =>
      simp [Clause.spineHeadsUntilBoolean, ActionExtractor.calculateRelativizedActions, ih]
  | case4 s r rt a i =>
      simp [Clause.spineHeadsUntilBoolean]
  | case5 s r rt a i ct other ih =>
      simp [Clause.spineHeadsUntilBoolean, ActionExtractor.calculateRelativizedActions, ih]


/-- With two singleton tag sets whose second tag conflicts with the first,
the pair scan of `has_conflict` finds the conflict at indices (0, 1). -/
theorem findConflict_pair_some (cs : ConflictSearcher) (t1 t2 : DeonticTag)
    (h : t2 ∈ cs.generateConflictSet t1) :
    cs.findConflict [[t1], [t2]] =
      some (t1, {t2}, ({t2} : Finset DeonticTag)) := by
  have hinter : cs.generateConflictSet t1 ∩ ({t2} : Finset DeonticTag) = {t2} :=
    Finset.inter_singleton_of_mem h
  have htf : ([t2] : List DeonticTag).toFinset = {t2} := rfl
  simp [ConflictSearcher.findConflict, List.findSome?, htf, hinter]

theorem prohibition_tag_mem_conflictSet (cs : ConflictSearcher)
    (rt : RelativizationType) (act : BasicAction) (se re : Int) :
    (match rt with
      | RelativizationType.Global => DeonticTag.global DeonticClauseType.Prohibition act
      | RelativizationType.Relativized =>
          DeonticTag.relativized DeonticClauseType.Prohibition act se
      | RelativizationType.Directed =>
          DeonticTag.directed DeonticClauseType.Prohibition act se re) ∈
      cs.generateConflictSet
        (match rt with
          | RelativizationType.Global => DeonticTag.global DeonticClauseType.Obligation act
          | RelativizationType.Relativized =>
              DeonticTag.relativized DeonticClauseType.Obligation act se
          | RelativizationType.Directed =>
              DeonticTag.directed DeonticClauseType.Obligation act se re) := by
  cases rt with
  | Global =>
      simp [ConflictSearcher.generateConflictSet, ConflictSearcher.generateTagsByType,
        DeonticTag.global]
  | Relativized =>
      simp [ConflictSearcher.generateConflictSet, ConflictSearcher.generateTagsByType,
        DeonticTag.relativized]
  | Directed =>
      simp [ConflictSearcher.generateConflictSet, ConflictSearcher.generateTagsByType,
        DeonticTag.directed]


/-- The constructor's running invariant over a successor-closed clause set
`R`: every state's clause exists and lies in `R`, state clauses are pairwise
distinct (the clause index is a function), ids are pairwise distinct, and
`next_state_id` is fresh. -/
structure AutomatonInv (R : Finset Clause) (a : Automaton) : Prop where
  clauses_mem : ∀ st ∈ a.states, ∃ c ∈ R, st.clause = some c
  clauses_nodup : (a.states.map State.clause).Nodup
  ids_nodup : (a.states.map State.id).Nodup
  ids_lt : ∀ st ∈ a.states, st.id < a.next_state_id

/-- Two states of an id-distinct state list with equal ids are equal. -/
theorem eq_of_mem_of_id_eq {l : List State} (h : (l.map State.id).Nodup)
    {s t : State} (hs : s ∈ l) (ht : t ∈ l) (hid : s.id = t.id) : s = t := by
  induction l with
  | nil => cases hs
  | cons x xs ih =>
      simp only [List.map_cons, List.nodup_cons] at h
      rcases List.mem_cons.mp hs with rfl | hs' <;>
        rcases List.mem_cons.mp ht with rfl | ht'
      · rfl
      · exact absurd (hid ▸ List.mem_map_of_mem State.id ht') h.1
      · exact absurd (hid ▸ List.mem_map_of_mem State.id hs') h.1
      · exact ih h.2 hs' ht'

/-- The invariant is untouched by any state-list rewrite that keeps each
state's clause and id (situation, conflict information and trace updates). -/
theorem AutomatonInv.of_pointwise {R : Finset Clause} {a b : Automaton}
    (hinv : AutomatonInv R a) (g : State → State)
    (hg : ∀ s ∈ a.states, (g s).clause = s.clause ∧ (g s).id = s.id)
    (hstates : b.states = a.states.map g)
    (hnext : b.next_state_id = a.next_state_id) : AutomatonInv R b := by
  have hcl : b.states.map State.clause = a.states.map State.clause := by
    rw [hstates, List.map_map]
    exact List.map_congr_left fun s hs => (hg s hs).1
  have hid : b.states.map State.id = a.states.map State.id := by
    rw [hstates, List.map_map]
    exact List.map_congr_left fun s hs => (hg s hs).2
  refine ⟨?_, hcl ▸ hinv.clauses_nodup, hid ▸ hinv.ids_nodup, ?_⟩
  · intro st hst
    rw [hstates] at hst
    obtain ⟨s, hs, rfl⟩ := List.mem_map.mp hst
    obtain ⟨c, hcR, hc⟩ := hinv.clauses_mem s hs
    exact ⟨c, hcR, (hg s hs).1.trans hc⟩
  · intro st hst
    rw [hstates] at hst
    obtain ⟨s, hs, rfl⟩ := List.mem_map.mp hst
    rw [hnext, (hg s hs).2]
    exact hinv.ids_lt s hs

/-- `has_conflict` only rewrites `situation` and `conflict_information`. -/
theorem hasConflict_preserves (cs : ConflictSearcher) (st : State) :
    ((cs.hasConflict st).2).clause = st.clause ∧ ((cs.hasConflict st).2).id = st.id := by
  unfold ConflictSearcher.hasConflict
  cases hc : st.clause with
  | none => simp
  | some c =>
      cases hf : cs.findConflict
          (ConflictSearcher.extractTags (ClauseDecomposer.processComposedActions c)) with
      | none => simp [hf, hc]
      | some x =>
          obtain ⟨t, i2, d2⟩ := x
          simp [hf, hc]

/-- `check_conflict_without_clone` preserves the invariant. -/
theorem checkConflict_inv {R : Finset Clause} {a : Automaton}
    (hinv : AutomatonInv R a) (ctx : ConstructorCtx) (indiv : Finset Int) (sid : Nat) :
    AutomatonInv R (ctx.checkConflict indiv sid a).2 := by
  unfold ConstructorCtx.checkConflict
  cases hfind : a.getStateById sid with
  | none => exact hinv
  | some st =>
      have hstmem : st ∈ a.states := List.mem_of_find?_eq_some hfind
      have hstid : st.id = sid := by
        have := List.find?_some hfind
        simpa using this
      set st2 := ((ConflictSearcher.mk indiv ctx.conflicts).hasConflict st).2 with hst2
      have hpres := hasConflict_preserves (ConflictSearcher.mk indiv ctx.conflicts) st
      refine AutomatonInv.of_pointwise hinv
        (fun s => if s.id = st2.id then st2 else s) ?_ ?_ ?_
      · intro s hs
        by_cases hids : s.id = st2.id
        · have hseq : s = st :=
            eq_of_mem_of_id_eq hinv.ids_nodup hs hstmem (hids.trans hpres.2)
          subst hseq
          simp only [if_pos hids]
          exact ⟨hpres.1, hpres.2⟩
        · simp only [if_neg hids]
          trivial
      · rfl
      · rfl


/-- The invariant only reads `states` and `next_state_id`. -/
theorem AutomatonInv.congr {R : Finset Clause} {a b : Automaton}
    (hinv : AutomatonInv R a) (hstates : b.states = a.states)
    (hnext : b.next_state_id = a.next_state_id) : AutomatonInv R b := by
  refine ⟨?_, hstates ▸ hinv.clauses_nodup, hstates ▸ hinv.ids_nodup, ?_⟩
  · intro st hst
    exact hinv.clauses_mem st (hstates ▸ hst)
  · intro st hst
    rw [hnext]
    exact hinv.ids_lt st (hstates ▸ hst)

/-- `Automaton::update_state` with a situation or trace rewrite keeps the
invariant. -/
theorem AutomatonInv.updateState {R : Finset Clause} {a : Automaton}
    (hinv : AutomatonInv R a) (sid : Nat) (f : State → State)
    (hf : ∀ s, (f s).clause = s.clause ∧ (f s).id = s.id) :
    AutomatonInv R (a.updateState sid f) := by
  refine AutomatonInv.of_pointwise hinv (fun s => if s.id = sid then f s else s) ?_ rfl rfl
  intro s _
  by_cases h : s.id = sid
  · simp only [if_pos h]
    exact hf s
  · simp only [if_neg h]
    trivial

/-- Registering a fresh state with a fresh id and an unregistered clause
from `R` keeps the invariant (with the id counter bumped). -/
theorem AutomatonInv.addState {R : Finset Clause} {a : Automaton}
    (hinv : AutomatonInv R a) (c : Clause) (hcR : c ∈ R)
    (hfresh : a.getStateByClause c = none) :
    AutomatonInv R
      { a.addState (State.withId a.next_state_id (some c)) with
        next_state_id := a.next_state_id + 1 } := by
  have hnotmem : ∀ st ∈ a.states, ¬st.clause = some c := by
    intro st hst
    have := List.find?_eq_none.mp hfresh st hst
    simpa using this
  refine ⟨?_, ?_, ?_, ?_⟩
  · intro st hst
    simp only [Automaton.addState, List.mem_append, List.mem_singleton] at hst
    rcases hst with hst | rfl
    · exact hinv.clauses_mem st hst
    · exact ⟨c, hcR, rfl⟩
  · simp only [Automaton.addState, List.map_append, List.map_cons, List.map_nil,
      List.nodup_append, List.nodup_cons, List.nodup_nil, List.disjoint_singleton,
      List.mem_map, not_exists, not_and]
    refine ⟨hinv.clauses_nodup, ⟨by simp, trivial⟩, ?_⟩
    intro st hst
    exact hnotmem st hst
  · simp only [Automaton.addState, List.map_append, List.map_cons, List.map_nil,
      List.nodup_append, List.nodup_cons, List.nodup_nil, List.disjoint_singleton,
      List.mem_map, not_exists, not_and]
    refine ⟨hinv.ids_nodup, ⟨by simp, trivial⟩, ?_⟩
    intro st hst
    exact Nat.ne_of_lt (hinv.ids_lt st hst)
  · intro st hst
    simp only [Automaton.addState, List.mem_append, List.mem_singleton] at hst
    rcases hst with hst | rfl
    · exact Nat.lt_succ_of_lt (hinv.ids_lt st hst)
    · exact Nat.lt_succ_self _


/-- The constructor preserves the invariant: every run that returns `ok`
only adds states whose clauses are fresh members of the successor-closed
set `R`. -/
theorem construct_preserves_inv (ctx : ConstructorCtx) (decF : Nat) (R : Finset Clause)
    (hclosed : ∀ c ∈ R, ∀ (I : Finset Int) (S : Finset RelativizedAction),
      (ClauseDecomposer.mk I true).decompose decF c S ∈ R) :
    ∀ fuel sid a res, AutomatonInv R a →
      construct ctx decF fuel sid a = Except.ok res → AutomatonInv R res := by
  intro fuel
  induction fuel with
  | zero =>
      intro sid a res hinv h
      simp only [construct] at h
      cases h
      exact hinv
  | succ fuel ih =>
      have hint : ∀ masks sid2 clause I sm a2 res2, clause ∈ R → AutomatonInv R a2 →
          integrateMasks ctx decF fuel sid2 clause I sm masks a2 = Except.ok res2 →
          AutomatonInv R res2 := by
        intro masks
        induction masks with
        | nil =>
            intro sid2 clause I sm a2 res2 _ hinv2 h2
            simp only [integrateMasks] at h2
            cases h2
            exact hinv2
        | cons mask masks ihm =>
            intro sid2 clause I sm a2 res2 hcR hinv2 h2
            simp only [integrateMasks] at h2
            split at h2
            · -- existing state: only a transition is added
              refine ihm sid2 clause I sm _ res2 hcR ?_ h2
              exact hinv2.congr rfl rfl
            · -- fresh state: register it, recurse, then continue
              rename_i hfind
              split at h2
              · exact absurd h2 (by simp)
              · rename_i a5 hc5
                have hnext : (ClauseDecomposer.mk I true).decompose decF clause
                    (decodeMask sm mask) ∈ R := hclosed clause hcR I (decodeMask sm mask)
                have hinv3 : AutomatonInv R
                    { a2.addState (State.withId a2.next_state_id
                        (some ((ClauseDecomposer.mk I true).decompose decF clause
                          (decodeMask sm mask)))) with
                      next_state_id := a2.next_state_id + 1 } :=
                  hinv2.addState _ hnext hfind
                have hinv4 := (hinv3.congr (b := { ({ a2.addState
                    (State.withId a2.next_state_id
                      (some ((ClauseDecomposer.mk I true).decompose decF clause
                        (decodeMask sm mask)))) with
                    next_state_id := a2.next_state_id + 1 }).addTransition
                      ⟨a2.next_transition_id, sid2, a2.next_state_id, mask, sm⟩ with
                    next_transition_id := a2.next_transition_id + 1 }) rfl rfl)
                have hinv5 := hinv4.updateState a2.next_state_id
                  (fun s => { s with trace := s.trace ++ [a2.next_transition_id] })
                  (fun s => ⟨rfl, rfl⟩)
                have hinv6 := ih a2.next_state_id _ a5 hinv5 hc5
                exact ihm sid2 clause I sm a5 res2 hcR hinv6 h2
      intro sid a res hinv h
      simp only [construct] at h
      split at h
      · cases h
        exact hinv.updateState sid _ (fun s => ⟨rfl, rfl⟩)
      · rename_i clause hclause
        split at h
        · cases h
          exact hinv.updateState sid _ (fun s => ⟨rfl, rfl⟩)
        · have hclauseR : clause ∈ R := by
            rw [Option.bind_eq_some] at hclause
            obtain ⟨st, hfind, hstc⟩ := hclause
            have hstmem : st ∈ a.states := List.mem_of_find?_eq_some hfind
            obtain ⟨c, hcR, hc⟩ := hinv.clauses_mem st hstmem
            rw [hc] at hstc
            cases hstc
            exact hcR
          have hinvck : AutomatonInv R
              ((ctx.checkConflict (ctx.getIndividuals clause) sid a).2) :=
            checkConflict_inv hinv ctx _ sid
          split at h <;> split at h <;>
            first
              | (cases h; exact hinvck.congr rfl rfl)
              | (split at h <;>
                  first
                    | exact absurd h (by simp)
                    | exact hint _ _ _ _ _ _ _ hclauseR (by exact hinvck.congr rfl rfl) h)


/-- An invariant-satisfying automaton has at most `|R|` states: clauses are
pairwise distinct and all drawn from `R`. -/
theorem AutomatonInv.states_length_le {R : Finset Clause} {a : Automaton}
    (hinv : AutomatonInv R a) : a.states.length ≤ R.card := by
  have h1 : (a.states.map State.clause).toFinset ⊆ R.image some := by
    intro x hx
    rw [List.mem_toFinset] at hx
    obtain ⟨st, hst, rfl⟩ := List.mem_map.mp hx
    obtain ⟨c, hcR, hc⟩ := hinv.clauses_mem st hst
    rw [hc]
    exact Finset.mem_image_of_mem some hcR
  calc a.states.length = (a.states.map State.clause).length := (List.length_map _ _).symm
    _ = (a.states.map State.clause).toFinset.card :=
        (List.toFinset_card_of_nodup hinv.clauses_nodup).symm
    _ ≤ (R.image some).card := Finset.card_le_card h1
    _ ≤ R.card := Finset.card_image_le

/-- C8: the clause index prevents any clause from being expanded twice, so
whenever the clauses reachable by the decomposer from the initial clause
(under any individuals and any chosen action set) form a finite set `R` of
size `k` containing the initial clause, every constructor run that returns
a result visits at most `k` states: all states carry pairwise-distinct
clauses drawn from `R`. -/
theorem construct_visits_at_most_k (ctx : ConstructorCtx) (decF : Nat)
    (R : Finset Clause) (k : Nat) (c0 : Clause)
    (hc0 : c0 ∈ R) (hcard : R.card = k)
    (hclosed : ∀ c ∈ R, ∀ (I : Finset Int) (S : Finset RelativizedAction),
      (ClauseDecomposer.mk I true).decompose decF c S ∈ R)
    (fuel : Nat) (res : Automaton)
    (hrun : construct ctx decF fuel 0 (Automaton.new (some c0)) = Except.ok res) :
    res.states.length ≤ k := by
  have hinit : AutomatonInv R (Automaton.new (some c0)) := by
    refine ⟨?_, by simp [Automaton.new], by simp [Automaton.new], ?_⟩
    · intro st hst
      simp only [Automaton.new, List.mem_singleton] at hst
      subst hst
      exact ⟨c0, hc0, rfl⟩
    · intro st hst
      simp only [Automaton.new, List.mem_singleton] at hst
      subst hst
      exact Nat.zero_lt_one
  have hfin := construct_preserves_inv ctx decF R hclosed fuel 0 _ res hinit hrun
  exact hcard ▸ hfin.states_length_le

/-- Witness for `construct_visits_at_most_k` on the one-clause contract
`⊤` with `R = {⊤}`. -/
theorem construct_visits_at_most_k_witness :
    Clause.booleanTrue ∈ ({Clause.booleanTrue} : Finset Clause) ∧
    ({Clause.booleanTrue} : Finset Clause).card = 1 ∧
    (∀ c ∈ ({Clause.booleanTrue} : Finset Clause),
      ∀ (I : Finset Int) (S : Finset RelativizedAction),
        (ClauseDecomposer.mk I true).decompose 1 c S ∈
          ({Clause.booleanTrue} : Finset Clause)) ∧
    construct (ConstructorCtx.mk ⟨false, true⟩ ∅ [] (fun _ => []) (fun _ => none)) 1 1 0
        (Automaton.new (some Clause.booleanTrue)) =
      Except.ok ((Automaton.new (some Clause.booleanTrue)).markBooleanState 0 true) ∧
    ((Automaton.new (some Clause.booleanTrue)).markBooleanState 0 true).states.length ≤ 1 := by
  have hclosed : ∀ c ∈ ({Clause.booleanTrue} : Finset Clause),
      ∀ (I : Finset Int) (S : Finset RelativizedAction),
        (ClauseDecomposer.mk I true).decompose 1 c S ∈
          ({Clause.booleanTrue} : Finset Clause) := by
    intro c hc I S
    rw [Finset.mem_singleton] at hc
    subst hc
    exact Finset.mem_singleton.mpr rfl
  have hrun : construct (ConstructorCtx.mk ⟨false, true⟩ ∅ [] (fun _ => [])
        (fun _ => none)) 1 1 0 (Automaton.new (some Clause.booleanTrue)) =
      Except.ok ((Automaton.new (some Clause.booleanTrue)).markBooleanState 0 true) := by
    simp only [construct]
    rfl
  exact ⟨Finset.mem_singleton.mpr rfl, rfl, hclosed, hrun,
    construct_visits_at_most_k _ 1 {Clause.booleanTrue} 1 Clause.booleanTrue
      (Finset.mem_singleton.mpr rfl) rfl hclosed 1 _ hrun⟩


/-- `has_conflict` on a state whose clause conjoins two deontic heads on the
same basic non-skip action and the same relativization, one an Obligation
and the other a Prohibition (in either order), finds a conflict: each tag
lies in the other's conflict closure, whatever the individuals and the
catalogue. -/
theorem hasConflict_obl_proh (cs : ConflictSearcher) (st : State) (se re : Int)
    (rt : RelativizationType) (ba : BasicAction) (pen1 pen2 : Option Clause)
    (dt1 dt2 : DeonticClauseType)
    (hba : ba.skip = false)
    (hdt : (dt1 = DeonticClauseType.Obligation ∧ dt2 = DeonticClauseType.Prohibition) ∨
      (dt1 = DeonticClauseType.Prohibition ∧ dt2 = DeonticClauseType.Obligation))
    (hst : st.clause = some (Clause.deontic se re rt (.basic ba) dt1 pen1
      (some (ClauseCompositionType.And,
        Clause.deontic se re rt (.basic ba) dt2 pen2 none)))) :
    ∃ ci, cs.hasConflict st = (true, { st with
      situation := StateSituation.Conflicting,
      conflict_information := some ci }) := by
  simp only [ConflictSearcher.hasConflict, hst]
  rw [processComposedActions_of_headsBasic (by cases ba; rfl)]
  have hbas : (Action.basic ba).getBasicActions = [BasicAction.withValue ba.value] := by
    simp [Action.getBasicActions, BasicAction.getBasicActions, hba]
  have hdelta : ConflictSearcher.extractTags
      (Clause.deontic se re rt (.basic ba) dt1 pen1
        (some (ClauseCompositionType.And,
          Clause.deontic se re rt (.basic ba) dt2 pen2 none))) =
      [ConflictSearcher.headTags se re rt (.basic ba) dt1,
       ConflictSearcher.headTags se re rt (.basic ba) dt2] := rfl
  rw [hdelta]
  cases rt with
  | Global =>
      have hO : ∀ dt, ConflictSearcher.headTags se re RelativizationType.Global (.basic ba)
          dt = [DeonticTag.global dt (BasicAction.withValue ba.value)] := by
        intro dt
        simp [ConflictSearcher.headTags, hbas]
      rw [hO, hO, findConflict_pair_some cs _ _ (by
        rcases hdt with ⟨rfl, rfl⟩ | ⟨rfl, rfl⟩ <;>
          simp [ConflictSearcher.generateConflictSet, ConflictSearcher.generateTagsByType,
            DeonticTag.global])]
      exact ⟨_, rfl⟩
  | Relativized =>
      have hO : ∀ dt, ConflictSearcher.headTags se re RelativizationType.Relativized
          (.basic ba) dt =
          [DeonticTag.relativized dt (BasicAction.withValue ba.value) se] := by
        intro dt
        simp [ConflictSearcher.headTags, hbas]
      rw [hO, hO, findConflict_pair_some cs _ _ (by
        rcases hdt with ⟨rfl, rfl⟩ | ⟨rfl, rfl⟩ <;>
          simp [ConflictSearcher.generateConflictSet, ConflictSearcher.generateTagsByType,
            DeonticTag.relativized])]
      exact ⟨_, rfl⟩
  | Directed =>
      have hO : ∀ dt, ConflictSearcher.headTags se re RelativizationType.Directed
          (.basic ba) dt =
          [DeonticTag.directed dt (BasicAction.withValue ba.value) se re] := by
        intro dt
        simp [ConflictSearcher.headTags, hbas]
      rw [hO, hO, findConflict_pair_some cs _ _ (by
        rcases hdt with ⟨rfl, rfl⟩ | ⟨rfl, rfl⟩ <;>
          simp [ConflictSearcher.generateConflictSet, ConflictSearcher.generateTagsByType,
            DeonticTag.directed])]
      exact ⟨_, rfl⟩


/-- An id-preserving state map that fixes id-0 entries leaves the lookup of
state 0 unchanged. -/
theorem find?_zero_map (l : List State) (g : State → State)
    (hid : ∀ s ∈ l, (g s).id = s.id) (hg : ∀ s ∈ l, s.id = 0 → g s = s) :
    (l.map g).find? (fun s => s.id = 0) = l.find? (fun s => s.id = 0) := by
  induction l with
  | nil => rfl
  | cons x xs ih =>
      simp only [List.map_cons]
      by_cases hx : x.id = 0
      · rw [List.find?_cons_of_pos _ (by simp [hid x (List.mem_cons_self x xs), hx]),
          List.find?_cons_of_pos _ (by simp [hx]),
          hg x (List.mem_cons_self x xs) hx]
      · rw [List.find?_cons_of_neg _ (by simp [hid x (List.mem_cons_self x xs), hx]),
          List.find?_cons_of_neg _ (by simp [hx])]
        exact ih (fun s hs => hid s (List.mem_cons_of_mem x hs))
          (fun s hs => hg s (List.mem_cons_of_mem x hs))

/-- Appending a state with a non-zero id leaves the lookup of state 0
unchanged. -/
theorem find?_zero_append (l : List State) (st : State) (h : ¬st.id = 0) :
    (l ++ [st]).find? (fun s => s.id = 0) = l.find? (fun s => s.id = 0) := by
  rw [List.find?_append]
  cases hf : l.find? (fun s => s.id = 0) with
  | some s => rfl
  | none => simp [List.find?, h]

/-- `check_conflict_without_clone` on a non-zero state id leaves the lookup
of state 0, the conflict flag and the id counter unchanged. -/
theorem checkConflict_preserves_zero (ctx : ConstructorCtx) (indiv : Finset Int)
    (sid : Nat) (a : Automaton) (hsid : 1 ≤ sid) :
    ((ctx.checkConflict indiv sid a).2).getStateById 0 = a.getStateById 0 ∧
      ((ctx.checkConflict indiv sid a).2).conflict_found = a.conflict_found ∧
      ((ctx.checkConflict indiv sid a).2).next_state_id = a.next_state_id := by
  unfold ConstructorCtx.checkConflict
  cases hfind : a.getStateById sid with
  | none => exact ⟨rfl, rfl, rfl⟩
  | some st =>
      have hstid : st.id = sid := by
        have := List.find?_some hfind
        simpa using this
      have hpres := hasConflict_preserves (ConflictSearcher.mk indiv ctx.conflicts) st
      refine ⟨?_, rfl, rfl⟩
      unfold Automaton.replaceState Automaton.getStateById
      exact find?_zero_map _ _
        (fun s _ => by
          by_cases h : s.id = ((ConflictSearcher.mk indiv ctx.conflicts).hasConflict st).2.id
          · simp only [if_pos h]
            exact h.symm
          · simp only [if_neg h])
        (fun s _ hs0 => by
          have : ¬s.id = ((ConflictSearcher.mk indiv ctx.conflicts).hasConflict st).2.id := by
            rw [hpres.2, hstid, hs0]
            omega
          simp only [if_neg this])

/-- Registering a fresh state (fresh id, then a trace update on that id)
leaves the lookup of state 0 unchanged. -/
theorem getStateById_zero_fresh (a2 : Automaton) (newClause : Clause) (tid : Nat)
    (hpos : 1 ≤ a2.next_state_id) (b : Automaton)
    (hb : b.states = ((a2.states ++ [State.withId a2.next_state_id (some newClause)]).map
      (fun s => if s.id = a2.next_state_id then
        { s with trace := s.trace ++ [tid] } else s))) :
    b.getStateById 0 = a2.getStateById 0 := by
  unfold Automaton.getStateById
  rw [hb]
  rw [find?_zero_map _ _
    (fun s _ => by by_cases hcond : s.id = a2.next_state_id <;> simp [hcond])
    (fun s _ hs0 => by
      have hne : ¬s.id = a2.next_state_id := by omega
      simp [hne])]
  exact find?_zero_append _ _ (by simp [State.withId]; omega)

/-- The mask-integration loop preserves state 0, raises-only the conflict
flag and keeps the id counter positive, given the same for the constructor
at the loop's fuel level. -/
theorem integrateMasks_preserves_zero_of (ctx : ConstructorCtx) (decF fuel : Nat)
    (ihc : ∀ sid a res, 1 ≤ sid → 1 ≤ a.next_state_id →
      construct ctx decF fuel sid a = Except.ok res →
      res.getStateById 0 = a.getStateById 0 ∧
        (a.conflict_found = true → res.conflict_found = true) ∧
        1 ≤ res.next_state_id) :
    ∀ masks sid2 clause I sm a2 res2, 1 ≤ a2.next_state_id →
      integrateMasks ctx decF fuel sid2 clause I sm masks a2 = Except.ok res2 →
      res2.getStateById 0 = a2.getStateById 0 ∧
        (a2.conflict_found = true → res2.conflict_found = true) ∧
        1 ≤ res2.next_state_id := by
  intro masks
  induction masks with
  | nil =>
      intro sid2 clause I sm a2 res2 hnext h2
      simp only [integrateMasks] at h2
      cases h2
      exact ⟨rfl, fun hc => hc, hnext⟩
  | cons mask masks ihm =>
      intro sid2 clause I sm a2 res2 hnext h2
      simp only [integrateMasks] at h2
      split at h2
      · rename_i existing hfindex
        have key := ihm sid2 clause I sm
          ({ a2.addTransition
              ⟨a2.next_transition_id, sid2, existing.id, mask, sm⟩ with
            next_transition_id := a2.next_transition_id + 1 }) res2 hnext h2
        exact key
      · split at h2
        · exact absurd h2 (by simp)
        · rename_i a5 hc5
          have key5 := ihc _ _ a5 (by exact hnext)
            (by exact Nat.le_succ_of_le hnext) hc5
          have key6 := ihm _ _ _ _ a5 res2 key5.2.2 h2
          refine ⟨?_, ?_, key6.2.2⟩
          · rw [key6.1, key5.1]
            exact getStateById_zero_fresh a2
              ((ClauseDecomposer.mk I true).decompose decF clause
                (decodeMask sm mask)) a2.next_transition_id hnext _ rfl
          · intro hcf
            exact key6.2.1 (key5.2.1 hcf)

/-- Through any run of the constructor whose recursion starts at a fresh
(positive) state id, state 0 keeps its record, the conflict flag can only
be raised, and the id counter stays positive. -/
theorem construct_preserves_zero (ctx : ConstructorCtx) (decF : Nat) :
    ∀ fuel sid a res, 1 ≤ sid → 1 ≤ a.next_state_id →
      construct ctx decF fuel sid a = Except.ok res →
      res.getStateById 0 = a.getStateById 0 ∧
        (a.conflict_found = true → res.conflict_found = true) ∧
        1 ≤ res.next_state_id := by
  intro fuel
  induction fuel with
  | zero =>
      intro sid a res _ hnext h
      simp only [construct] at h
      cases h
      exact ⟨rfl, fun hc => hc, hnext⟩
  | succ fuel ih =>
      have hint := integrateMasks_preserves_zero_of ctx decF fuel ih
      intro sid a res hsid hnext h
      have hmark : ∀ v : Bool, (a.markBooleanState sid v).getStateById 0 =
          a.getStateById 0 := by
        intro v
        unfold Automaton.markBooleanState Automaton.updateState Automaton.getStateById
        exact find?_zero_map _ _
          (fun s _ => by by_cases hcond : s.id = sid <;> simp [hcond])
          (fun s _ hs0 => by
            have hne : ¬s.id = sid := by omega
            simp [hne])
      simp only [construct] at h
      split at h
      · cases h
        exact ⟨hmark true, fun hc => hc, hnext⟩
      · rename_i clause hclause
        split at h
        · cases h
          exact ⟨hmark _, fun hc => hc, hnext⟩
        · have hck0 := checkConflict_preserves_zero ctx (ctx.getIndividuals clause) sid a hsid
          split at h <;> split at h <;>
            first
              | (cases h
                 exact ⟨hck0.1,
                   fun hc => by first | exact rfl | exact hck0.2.1.trans hc,
                   le_of_le_of_eq hnext hck0.2.2.symm⟩)
              | (split at h <;>
                  first
                    | exact absurd h (by simp)
                    | (have key := hint _ _ _ _ _ _ res
                          (by exact le_of_le_of_eq hnext hck0.2.2.symm) h
                       exact ⟨key.1.trans hck0.1,
                         fun hc => key.2.1
                           (by first | exact rfl | exact hck0.2.1.trans hc),
                         key.2.2⟩))

/-- The mask-integration loop preserves state 0, raises-only the conflict
flag and keeps the id counter positive. -/
theorem integrateMasks_preserves_zero (ctx : ConstructorCtx) (decF fuel : Nat) :
    ∀ masks sid2 clause I sm a2 res2, 1 ≤ a2.next_state_id →
      integrateMasks ctx decF fuel sid2 clause I sm masks a2 = Except.ok res2 →
      res2.getStateById 0 = a2.getStateById 0 ∧
        (a2.conflict_found = true → res2.conflict_found = true) ∧
        1 ≤ res2.next_state_id :=
  integrateMasks_preserves_zero_of ctx decF fuel
    (fun sid a res h1 h2 h3 => construct_preserves_zero ctx decF fuel sid a res h1 h2 h3)

/-- An id-preserving conditional map leaves the id listing unchanged. -/
theorem map_id_updateState (l : List State) (idn : Nat) (f : State → State)
    (hf : ∀ s, (f s).id = s.id) :
    ((l.map fun s => if s.id = idn then f s else s).map State.id) = l.map State.id := by
  rw [List.map_map]
  apply List.map_congr_left
  intro s _
  by_cases h : s.id = idn <;> simp [h, hf s, Function.comp]

/-- The constructor on a state whose clause is absent or Boolean returns
`Except.ok`, changes no state ids and keeps the id counter. -/
theorem construct_boolean_total (ctx : ConstructorCtx) (decF fuel sid : Nat)
    (a : Automaton)
    (h : ((a.getStateById sid).bind fun s => s.clause) = none ∨
      ∃ v comp, ((a.getStateById sid).bind fun s => s.clause) =
        some (Clause.boolean v comp)) :
    ∀ r, construct ctx decF fuel sid a = r →
      ∃ res, r = Except.ok res ∧
        res.states.map State.id = a.states.map State.id ∧
        res.next_state_id = a.next_state_id := by
  intro r hr
  cases fuel with
  | zero =>
      simp only [construct] at hr
      exact ⟨a, hr.symm, rfl, rfl⟩
  | succ fuel =>
      simp only [construct] at hr
      split at hr
      · exact ⟨a.markBooleanState sid true, hr.symm,
          map_id_updateState _ _ _ (fun s => rfl), rfl⟩
      · rename_i clause hclause
        rcases h with hnone | ⟨v, comp, hsome⟩
        · rw [hclause] at hnone
          exact absurd hnone (by simp)
        · rw [hclause] at hsome
          cases Option.some.inj hsome
          exact ⟨a.markBooleanState sid v, hr.symm,
            map_id_updateState _ _ _ (fun s => rfl), rfl⟩

/-- `find?` over a mapped snoc finds the appended element when the prefix
misses the predicate. -/
theorem find?_fresh (l : List State) (x : State) (g : State → State) (idn : Nat)
    (hl : ∀ s ∈ l, ¬(g s).id = idn) (hx : (g x).id = idn) :
    ((l ++ [x]).map g).find? (fun s => s.id = idn) = some (g x) := by
  induction l with
  | nil =>
      simp only [List.nil_append, List.map_cons, List.map_nil]
      exact List.find?_cons_of_pos _ (by simp [hx])
  | cons y l ih =>
      rw [List.cons_append, List.map_cons,
        List.find?_cons_of_neg _ (by simp [hl y (List.mem_cons_self y l)])]
      exact ih (fun s hs => hl s (List.mem_cons_of_mem y hs))

/-- After registering a fresh state (fresh id, then a trace update on that
id), looking the fresh id up yields the fresh clause. -/
theorem getStateById_fresh_new (a : Automaton) (nc : Clause) (tid : Nat)
    (hfresh : ∀ st ∈ a.states, st.id < a.next_state_id) (b : Automaton)
    (hb : b.states = ((a.states ++ [State.withId a.next_state_id (some nc)]).map
      (fun s => if s.id = a.next_state_id then
        { s with trace := s.trace ++ [tid] } else s))) :
    (b.getStateById a.next_state_id).bind (fun s => s.clause) = some nc := by
  unfold Automaton.getStateById
  rw [hb, find?_fresh a.states (State.withId a.next_state_id (some nc)) _
    a.next_state_id
    (fun s hs => by
      have hlt := hfresh s hs
      by_cases hcond : s.id = a.next_state_id
      · exact absurd hcond (by omega)
      · simp [hcond, State.withId])
    (by simp [State.withId])]
  simp [State.withId]

/-- The fresh-state registration keeps all ids below the bumped counter. -/
theorem fresh_ids_after_new (a : Automaton) (nc : Clause) (tid : Nat)
    (hfresh : ∀ st ∈ a.states, st.id < a.next_state_id) (b : Automaton)
    (hb : b.states.map State.id =
      (((a.states ++ [State.withId a.next_state_id (some nc)]).map
        (fun s => if s.id = a.next_state_id then
          { s with trace := s.trace ++ [tid] } else s)).map State.id))
    (hbn : b.next_state_id = a.next_state_id + 1) :
    ∀ st ∈ b.states, st.id < b.next_state_id := by
  intro st hst
  have hmem : st.id ∈ b.states.map State.id := List.mem_map_of_mem State.id hst
  rw [hb] at hmem
  rw [hbn]
  simp only [List.map_map, List.map_append, List.mem_append, List.mem_map,
    Function.comp, List.map_cons, List.map_nil, List.mem_singleton] at hmem
  rcases hmem with ⟨s, hs, hid⟩ | hid
  · have hpres : (if s.id = a.next_state_id then
        { s with trace := s.trace ++ [tid] } else s).id = s.id := by
      by_cases h : s.id = a.next_state_id <;> simp [h]
    rw [hpres] at hid
    have := hfresh s hs
    omega
  · simp [State.withId] at hid
    omega

/-- When the state clause decomposes to a Boolean under every action set,
the mask-integration loop never errors. -/
theorem integrateMasks_boolean_total (ctx : ConstructorCtx) (decF fuel sid2 : Nat)
    (clause : Clause) (I : Finset Int) (sm : List RelativizedAction)
    (hbool : ∀ S, ∃ v comp,
      (ClauseDecomposer.mk I true).decompose decF clause S = Clause.boolean v comp) :
    ∀ masks a, (∀ st ∈ a.states, st.id < a.next_state_id) →
      ∃ res, integrateMasks ctx decF fuel sid2 clause I sm masks a = Except.ok res := by
  intro masks
  induction masks with
  | nil =>
      intro a _
      exact ⟨a, by simp only [integrateMasks]⟩
  | cons mask masks ihm =>
      intro a hfresh
      cases hres : integrateMasks ctx decF fuel sid2 clause I sm (mask :: masks) a with
      | ok res => exact ⟨res, rfl⟩
      | error e =>
          exfalso
          simp only [integrateMasks] at hres
          split at hres
          · rename_i existing hfindx
            obtain ⟨res, hok⟩ := ihm
              ({ a.addTransition
                  ⟨a.next_transition_id, sid2, existing.id, mask, sm⟩ with
                next_transition_id := a.next_transition_id + 1 }) (by exact hfresh)
            exact absurd (hok.symm.trans hres) (by simp)
          · obtain ⟨v, comp, hvc⟩ := hbool (decodeMask sm mask)
            split at hres
            · rename_i e2 hce
              obtain ⟨res, habs, -, -⟩ := construct_boolean_total ctx decF fuel _ _
                (by exact Or.inr ⟨v, comp,
                  (getStateById_fresh_new a
                    ((ClauseDecomposer.mk I true).decompose decF clause
                      (decodeMask sm mask))
                    a.next_transition_id hfresh _ rfl).trans
                  (congrArg Option.some hvc)⟩)
                _ hce
              exact absurd habs (by simp)
            · rename_i a5 hc5
              obtain ⟨res5, hok5, hids5, hnext5⟩ := construct_boolean_total ctx decF fuel _ _
                (by exact Or.inr ⟨v, comp,
                  (getStateById_fresh_new a
                    ((ClauseDecomposer.mk I true).decompose decF clause
                      (decodeMask sm mask))
                    a.next_transition_id hfresh _ rfl).trans
                  (congrArg Option.some hvc)⟩)
                _ hc5
              cases Except.ok.inj hok5
              have hfresh5 := fresh_ids_after_new a
                ((ClauseDecomposer.mk I true).decompose decF clause (decodeMask sm mask))
                a.next_transition_id hfresh a5 (by exact hids5) (by exact hnext5)
              obtain ⟨res, hok⟩ := ihm a5 hfresh5
              exact absurd (hok.symm.trans hres) (by simp)

/-- The concurrency extractor succeeds whenever the enumerated action set has
at most 30 members. -/
theorem extractor_ok_of_small (conflicts : List Conflict) (clause : Clause)
    (indiv : Finset Int)
    (enumerate : Finset RelativizedAction → List RelativizedAction)
    (hlen : (enumerate (ActionExtractor.calculateRelativizedActions
      (ClauseDecomposer.processComposedActions clause) indiv)).length ≤ 30) :
    ∃ comp, ActionExtractor.calculateConcurrentRelativizedActions conflicts clause indiv
      enumerate = Except.ok comp := by
  unfold ActionExtractor.calculateConcurrentRelativizedActions
  unfold ContractUtil.calculateConcurrentRelativizedActions
  dsimp only
  rw [if_neg (by omega :
    ¬(enumerate (ActionExtractor.calculateRelativizedActions
      (ClauseDecomposer.processComposedActions clause) indiv)).length > 30)]
  cases hL : enumerate (ActionExtractor.calculateRelativizedActions
      (ClauseDecomposer.processComposedActions clause) indiv) with
  | nil => exact ⟨_, rfl⟩
  | cons x tl =>
      cases tl with
      | nil => exact ⟨_, rfl⟩
      | cons y tl2 => exact ⟨_, rfl⟩

/-- Both arms of the penalty-free residual selection are bare Booleans. -/
theorem ite_boolean_getD_prop (p : Prop) [Decidable p] :
    ∃ v, (if p then Clause.booleanTrue
      else (none : Option Clause).getD Clause.booleanFalse) = Clause.boolean v none := by
  by_cases h : p
  · exact ⟨true, by simp [h, Clause.booleanTrue]⟩
  · exact ⟨false, by simp [h, Clause.booleanFalse]⟩

/-- Both arms of the penalty-free residual selection are bare Booleans
(Boolean-condition form). -/
theorem ite_boolean_getD (b : Bool) :
    ∃ v, (if b = true then Clause.booleanTrue
      else (none : Option Clause).getD Clause.booleanFalse) = Clause.boolean v none := by
  cases b
  · exact ⟨false, rfl⟩
  · exact ⟨true, rfl⟩

/-- A penalty-free deontic head with a basic action always decomposes to a
bare Boolean clause. -/
theorem decomposeDeontic_boolean_none (D : ClauseDecomposer) (se re : Int)
    (rt : RelativizationType) (ba : BasicAction) (dt : DeonticClauseType)
    (S : Finset RelativizedAction) :
    ∃ v, D.decomposeDeontic (Clause.deontic se re rt (.basic ba) dt none none) S =
      Clause.boolean v none := by
  unfold ClauseDecomposer.decomposeDeontic ClauseDecomposer.decomposeDeonticSpecial
  cases dt with
  | Obligation =>
      by_cases h1 : ba.violation = true ∨ ba.skip = true <;>
        simp only [h1, if_true, if_false, iff_true, iff_false] <;>
        exact ite_boolean_getD _
  | Prohibition =>
      by_cases h1 : ba.violation = true ∨ ba.skip = true <;>
        simp only [h1, if_true, if_false, iff_true, iff_false]
      · exact ite_boolean_getD _
      · exact ite_boolean_getD_prop _
  | Permission =>
      by_cases h1 : ba.violation = true ∨ ba.skip = true <;>
        simp only [h1, if_true, if_false, iff_true, iff_false] <;>
        exact ⟨true, rfl⟩

/-- With three levels of fuel, the Obligation-and-Prohibition pair clause
decomposes to a bare Boolean under every action set. -/
theorem decompose_pair_boolean (I : Finset Int) (d : Nat) (se re : Int)
    (rt : RelativizationType) (ba : BasicAction) (dt1 dt2 : DeonticClauseType)
    (S : Finset RelativizedAction) :
    ∃ v, (ClauseDecomposer.mk I true).decompose (d + 3)
      (Clause.deontic se re rt (.basic ba) dt1 none
        (some (ClauseCompositionType.And,
          Clause.deontic se re rt (.basic ba) dt2 none none))) S =
      Clause.boolean v none := by
  obtain ⟨v1, h1⟩ := decomposeDeontic_boolean_none (ClauseDecomposer.mk I true)
    se re rt ba dt1 S
  obtain ⟨v2, h2⟩ := decomposeDeontic_boolean_none (ClauseDecomposer.mk I true)
    se re rt ba dt2 S
  have hstep : d + 3 = (d + 2) + 1 := rfl
  rw [hstep]
  simp only [ClauseDecomposer.decompose, ClauseDecomposer.decomposeSingle,
    Clause.getComposition, Clause.setCompositionToNone,
    ClauseDecomposer.isComposedAction, h1, h2]
  refine ⟨v1 && v2, ?_⟩
  simp only [ClauseDecomposer.combine, ClauseDecomposer.evaluateBoolean]
  cases hv : v1 && v2 <;>
    simp [hv, Clause.booleanTrue, Clause.booleanFalse]

/-- C2: for every contract whose initial clause conjoins an Obligation and a
Prohibition on the same basic non-skip action (either conjunct order, any
relativization, individuals and catalogue), and every configuration whose
enumerated initial action set is within the 30-action capacity, the
constructor returns `Except.ok` (a result, never an error) with
`conflict_found = true` and the initial state marked Conflicting; and
whenever `continue_on_conflict = false` the conflicting initial state is not
expanded, so the automaton has no transitions. -/
theorem conflict_contract_initial (ctx : ConstructorCtx) (d fuel : Nat)
    (se re : Int) (rt : RelativizationType) (ba : BasicAction)
    (dt1 dt2 : DeonticClauseType)
    (hba : ba.skip = false)
    (hdt : (dt1 = DeonticClauseType.Obligation ∧ dt2 = DeonticClauseType.Prohibition) ∨
      (dt1 = DeonticClauseType.Prohibition ∧ dt2 = DeonticClauseType.Obligation))
    (hcap : (ctx.enumerate (ActionExtractor.calculateRelativizedActions
      (ClauseDecomposer.processComposedActions
        (Clause.deontic se re rt (.basic ba) dt1 none
          (some (ClauseCompositionType.And,
            Clause.deontic se re rt (.basic ba) dt2 none none))))
      (ctx.getIndividuals (Clause.deontic se re rt (.basic ba) dt1 none
        (some (ClauseCompositionType.And,
          Clause.deontic se re rt (.basic ba) dt2 none none)))))).length ≤ 30) :
    ∃ result, construct ctx (d + 3) (fuel + 1) 0
        (Automaton.new (some (Clause.deontic se re rt (.basic ba) dt1 none
          (some (ClauseCompositionType.And,
            Clause.deontic se re rt (.basic ba) dt2 none none))))) =
      Except.ok result ∧
      result.conflict_found = true ∧
      (∃ st, result.getStateById 0 = some st ∧
        st.situation = StateSituation.Conflicting) ∧
      (ctx.config.continue_on_conflict = false → result.transitions = []) := by
  have h1 : (Automaton.new (some (Clause.deontic se re rt (.basic ba) dt1 none
      (some (ClauseCompositionType.And,
        Clause.deontic se re rt (.basic ba) dt2 none none))))).getStateById 0 =
      some (State.withId 0 (some (Clause.deontic se re rt (.basic ba) dt1 none
      (some (ClauseCompositionType.And,
        Clause.deontic se re rt (.basic ba) dt2 none none))))) := rfl
  obtain ⟨ci, hcc⟩ := hasConflict_obl_proh
    ⟨ctx.getIndividuals (Clause.deontic se re rt (.basic ba) dt1 none
      (some (ClauseCompositionType.And,
        Clause.deontic se re rt (.basic ba) dt2 none none))), ctx.conflicts⟩
    (State.withId 0 (some (Clause.deontic se re rt (.basic ba) dt1 none
      (some (ClauseCompositionType.And,
        Clause.deontic se re rt (.basic ba) dt2 none none)))))
    se re rt ba none none dt1 dt2 hba hdt rfl
  have hck : ctx.checkConflict (ctx.getIndividuals (Clause.deontic se re rt (.basic ba) dt1 none
      (some (ClauseCompositionType.And,
        Clause.deontic se re rt (.basic ba) dt2 none none)))) 0
      (Automaton.new (some (Clause.deontic se re rt (.basic ba) dt1 none
      (some (ClauseCompositionType.And,
        Clause.deontic se re rt (.basic ba) dt2 none none))))) =
      (true, (Automaton.new (some (Clause.deontic se re rt (.basic ba) dt1 none
      (some (ClauseCompositionType.And,
        Clause.deontic se re rt (.basic ba) dt2 none none))))).replaceState
        { State.withId 0 (some (Clause.deontic se re rt (.basic ba) dt1 none
      (some (ClauseCompositionType.And,
        Clause.deontic se re rt (.basic ba) dt2 none none)))) with
          situation := StateSituation.Conflicting,
          conflict_information := some ci }) := by
    simp only [ConstructorCtx.checkConflict, h1, hcc]
  simp only [construct]
  rw [h1]
  simp only [Option.some_bind]
  simp only [State.withId]
  cases hflag : ctx.config.continue_on_conflict with
  | false =>
      simp only [hck, hflag, Bool.not_false, Bool.and_true, if_true]
      exact ⟨_, rfl, rfl, ⟨_, rfl, rfl⟩, fun _ => rfl⟩
  | true =>
      simp only [hck, hflag, Bool.not_true, Bool.and_false, if_false]
      obtain ⟨comp, hext⟩ := extractor_ok_of_small ctx.conflicts
        (Clause.deontic se re rt (.basic ba) dt1 none
          (some (ClauseCompositionType.And,
            Clause.deontic se re rt (.basic ba) dt2 none none)))
        (ctx.getIndividuals (Clause.deontic se re rt (.basic ba) dt1 none
          (some (ClauseCompositionType.And,
            Clause.deontic se re rt (.basic ba) dt2 none none))))
        ctx.enumerate hcap
      simp only [hext]
      have hbool : ∀ S, ∃ v comp2,
          (ClauseDecomposer.mk (ctx.getIndividuals (Clause.deontic se re rt (.basic ba) dt1 none
            (some (ClauseCompositionType.And,
              Clause.deontic se re rt (.basic ba) dt2 none none)))) true).decompose
            (d + 3)
            (Clause.deontic se re rt (.basic ba) dt1 none
              (some (ClauseCompositionType.And,
                Clause.deontic se re rt (.basic ba) dt2 none none))) S =
            Clause.boolean v comp2 := by
        intro S
        obtain ⟨v, hv⟩ := decompose_pair_boolean
          (ctx.getIndividuals (Clause.deontic se re rt (.basic ba) dt1 none
            (some (ClauseCompositionType.And,
              Clause.deontic se re rt (.basic ba) dt2 none none)))) d se re rt ba dt1 dt2 S
        exact ⟨v, none, hv⟩
      have hfreshA2 : ∀ st ∈ ({ (Automaton.new (some (Clause.deontic se re rt (.basic ba) dt1 none
          (some (ClauseCompositionType.And,
            Clause.deontic se re rt (.basic ba) dt2 none none))))).replaceState
            { State.withId 0 (some (Clause.deontic se re rt (.basic ba) dt1 none
              (some (ClauseCompositionType.And,
                Clause.deontic se re rt (.basic ba) dt2 none none)))) with
              situation := StateSituation.Conflicting,
              conflict_information := some ci } with
          conflict_found := true } : Automaton).states,
          st.id < ({ (Automaton.new (some (Clause.deontic se re rt (.basic ba) dt1 none
          (some (ClauseCompositionType.And,
            Clause.deontic se re rt (.basic ba) dt2 none none))))).replaceState
            { State.withId 0 (some (Clause.deontic se re rt (.basic ba) dt1 none
              (some (ClauseCompositionType.And,
                Clause.deontic se re rt (.basic ba) dt2 none none)))) with
              situation := StateSituation.Conflicting,
              conflict_information := some ci } with
          conflict_found := true } : Automaton).next_state_id := by
        intro st hst
        simp only [Automaton.new, Automaton.replaceState, List.map_cons, List.map_nil,
          List.mem_singleton, State.withId] at hst
        subst hst
        by_cases hc : (0 : Nat) = 0 <;>
          simp [hc, State.withId, Automaton.new, Automaton.replaceState]
      obtain ⟨res, hok⟩ := integrateMasks_boolean_total ctx (d + 3) fuel 0
        (Clause.deontic se re rt (.basic ba) dt1 none
          (some (ClauseCompositionType.And,
            Clause.deontic se re rt (.basic ba) dt2 none none)))
        (ctx.getIndividuals (Clause.deontic se re rt (.basic ba) dt1 none
          (some (ClauseCompositionType.And,
            Clause.deontic se re rt (.basic ba) dt2 none none))))
        comp.source_map hbool comp.valid_masks _ hfreshA2
      have hpres := integrateMasks_preserves_zero ctx (d + 3) fuel comp.valid_masks 0
        (Clause.deontic se re rt (.basic ba) dt1 none
          (some (ClauseCompositionType.And,
            Clause.deontic se re rt (.basic ba) dt2 none none)))
        (ctx.getIndividuals (Clause.deontic se re rt (.basic ba) dt1 none
          (some (ClauseCompositionType.And,
            Clause.deontic se re rt (.basic ba) dt2 none none))))
        comp.source_map _ res (by exact Nat.le.refl) hok
      refine ⟨res, hok, hpres.2.1 rfl, ⟨_, hpres.1.trans rfl, rfl⟩,
        fun hfalse => absurd hfalse (by simp)⟩

/-- Witness for `conflict_contract_initial` at a concrete context (with
`continue_on_conflict = true`) and obligation/prohibition pair. -/
theorem conflict_contract_initial_witness :
    (BasicAction.withValue 4).skip = false ∧
    ((DeonticClauseType.Obligation = DeonticClauseType.Obligation ∧
        DeonticClauseType.Prohibition = DeonticClauseType.Prohibition) ∨
      (DeonticClauseType.Obligation = DeonticClauseType.Prohibition ∧
        DeonticClauseType.Prohibition = DeonticClauseType.Obligation)) ∧
    ((ConstructorCtx.mk ⟨true, true⟩ {1, 2} [] (fun _ => []) (fun _ => none)).enumerate
      (ActionExtractor.calculateRelativizedActions
        (ClauseDecomposer.processComposedActions
          (Clause.deontic 1 2 RelativizationType.Directed
            (.basic (BasicAction.withValue 4)) DeonticClauseType.Obligation none
            (some (ClauseCompositionType.And,
              Clause.deontic 1 2 RelativizationType.Directed
                (.basic (BasicAction.withValue 4)) DeonticClauseType.Prohibition none
                none))))
        ((ConstructorCtx.mk ⟨true, true⟩ {1, 2} [] (fun _ => [])
            (fun _ => none)).getIndividuals
          (Clause.deontic 1 2 RelativizationType.Directed
            (.basic (BasicAction.withValue 4)) DeonticClauseType.Obligation none
            (some (ClauseCompositionType.And,
              Clause.deontic 1 2 RelativizationType.Directed
                (.basic (BasicAction.withValue 4)) DeonticClauseType.Prohibition none
                none)))))).length ≤ 30 ∧
    (∃ result, construct
        (ConstructorCtx.mk ⟨true, true⟩ {1, 2} [] (fun _ => []) (fun _ => none))
        (0 + 3) (0 + 1) 0
        (Automaton.new (some (Clause.deontic 1 2 RelativizationType.Directed
          (.basic (BasicAction.withValue 4)) DeonticClauseType.Obligation none
          (some (ClauseCompositionType.And,
            Clause.deontic 1 2 RelativizationType.Directed
              (.basic (BasicAction.withValue 4)) DeonticClauseType.Prohibition none
              none))))) =
      Except.ok result ∧
      result.conflict_found = true ∧
      (∃ st, result.getStateById 0 = some st ∧
        st.situation = StateSituation.Conflicting) ∧
      ((ConstructorCtx.mk ⟨true, true⟩ {1, 2} [] (fun _ => [])
          (fun _ => none)).config.continue_on_conflict = false →
        result.transitions = [])) :=
  ⟨rfl, Or.inl ⟨rfl, rfl⟩, by decide,
    conflict_contract_initial
      (ConstructorCtx.mk ⟨true, true⟩ {1, 2} [] (fun _ => []) (fun _ => none)) 0 0
      1 2 RelativizationType.Directed (BasicAction.withValue 4)
      DeonticClauseType.Obligation DeonticClauseType.Prohibition rfl
      (Or.inl ⟨rfl, rfl⟩) (by decide)⟩

end Recall
